import Mathlib

/-!
# HttpServer: reactor loop (`httpserver.cpp`) and request parser (`http_parser.h`)

A shallow embedding of the epoll reactor of `httpserver.cpp`.  Every system or
library call the program makes is recorded, with its arguments and its result,
in a call log; the results themselves come from an explicit environment record.
The control flow of `main` depends only on the results it actually inspects
(`epoll_wait`, `accept`, `fcntl(F_GETFL)` and the start-up calls); the results
it ignores (`epoll_ctl`, `threadpool::add`, `close`) are still supplied by the
environment and logged, so that statements can quantify over them.

`http_process.h`, `threadpool.h` and `http_parser.cpp` are not among the
sources.  What the statements need of them (the bounded task queue, the
worker's final action on a connection, the parsing functions) is modelled from
the spec, and so is the one-shot contract of the multiplexer; each such
definition says so.
-/

namespace HttpServer

/-! ## Constants of the system headers used by `httpserver.cpp` -/

/-- Value of `MAX_EVENTS` (`#define MAX_EVENTS 10000`). -/
def MAX_EVENTS : Nat := 10000

/-- Value of `EPOLLIN` in `<sys/epoll.h>`. -/
def EPOLLIN : Nat := 0x001
/-- Value of `EPOLLOUT` in `<sys/epoll.h>`. -/
def EPOLLOUT : Nat := 0x004
/-- Value of `EPOLLERR` in `<sys/epoll.h>`. -/
def EPOLLERR : Nat := 0x008
/-- Value of `EPOLLHUP` in `<sys/epoll.h>`. -/
def EPOLLHUP : Nat := 0x010
/-- Value of `EPOLLRDHUP` in `<sys/epoll.h>`. -/
def EPOLLRDHUP : Nat := 0x2000
/-- Value of `EPOLLONESHOT` in `<sys/epoll.h>` (`1u << 30`). -/
def EPOLLONESHOT : Nat := 0x40000000
/-- Value of `EPOLLET` in `<sys/epoll.h>` (`1u << 31`). -/
def EPOLLET : Nat := 0x80000000

/-- Value of `EPOLL_CTL_ADD`. -/
def EPOLL_CTL_ADD : Int := 1
/-- Value of `EPOLL_CTL_DEL`. -/
def EPOLL_CTL_DEL : Int := 2
/-- Value of `EPOLL_CTL_MOD`. -/
def EPOLL_CTL_MOD : Int := 3

/-- Value of `O_NONBLOCK` in `<fcntl.h>` (octal 04000). -/
def O_NONBLOCK : Int := 2048
/-- Value of `EINTR` in `<errno.h>`. -/
def EINTR : Int := 4
/-- Value of `EAGAIN` in `<errno.h>`. -/
def EAGAIN : Int := 11
/-- Value of `SIGPIPE` in `<signal.h>`. -/
def SIGPIPE : Int := 13

/-! ## Data -/

/-- The two fields of `struct epoll_event` the program uses: `events` (a 32-bit
mask) and `data.fd`. -/
structure epoll_event where
  events : Nat
  fd : Int
  deriving DecidableEq, Repr, Inhabited

/-- One call made by the program, with its arguments and (where there is one)
its result. -/
inductive Call where
  /-- `accept(listenfd, ...)` returned `ret`. -/
  | accept (listenfd : Int) (ret : Int)
  /-- `epoll_ctl(epollfd, op, fd, &event)` with `event.events = events`,
  `event.data.fd = data`, returned `ret`; for `EPOLL_CTL_DEL` the event pointer
  is null and `events`, `data` are recorded as `0`. -/
  | epoll_ctl (epollfd : Int) (op : Int) (fd : Int) (events : Nat) (data : Int) (ret : Int)
  /-- `fcntl(fd, F_GETFL)` returned `ret`. -/
  | fcntl_getfl (fd : Int) (ret : Int)
  /-- `fcntl(fd, F_SETFL, flags)`. -/
  | fcntl_setfl (fd : Int) (flags : Int)
  /-- `close(fd)`. -/
  | close (fd : Int)
  /-- `pool->add(new http_process(epollfd, sockfd))`; `queued` is whether the
  pool took the task. -/
  | pool_add (epollfd : Int) (sockfd : Int) (queued : Bool)
  /-- `std::cout << msg << std::endl`. -/
  | cout (msg : String)
  /-- `std::cout << "error: " << strerror(errno) << std::endl` with the given `errno`. -/
  | cout_error (errno : Int)
  /-- `epoll_wait(epollfd, evlist, MAX_EVENTS, -1)` returned `ret`. -/
  | epoll_wait (epollfd : Int) (maxevents : Nat) (ret : Int)
  /-- `sigaction(signo, &sa, NULL)` returned `ret`. -/
  | sigaction (signo : Int) (ret : Int)
  /-- `new threadpool<http_process>()`; `built` is whether the constructor returned. -/
  | pool_new (built : Bool)
  /-- `socket(AF_INET, SOCK_STREAM, 0)` returned `ret`. -/
  | socket (ret : Int)
  /-- `setsockopt(fd, SOL_SOCKET, SO_REUSEADDR, ...)` returned `ret`. -/
  | setsockopt (fd : Int) (ret : Int)
  /-- `bind(fd, ...)` on the given port returned `ret`. -/
  | bind (fd : Int) (port : Int) (ret : Int)
  /-- `listen(fd, backlog)` returned `ret`. -/
  | listen (fd : Int) (backlog : Int) (ret : Int)
  /-- `epoll_create(size)` returned `ret`. -/
  | epoll_create (size : Int) (ret : Int)
  /-- `delete pool`. -/
  | pool_delete
  /-- `delete pool` in the `catch` block, where `pool` was never assigned. -/
  | pool_delete_unassigned
  deriving DecidableEq, Repr

/-- Modelled from the spec: the task queue of `threadpool` (`threadpool.h` is not
among the sources).  The spec's worker pool has a bounded FIFO queue of tasks,
a task being a connection reference, here the pair `(epollfd, sockfd)` handed to
`http_process`. -/
structure threadpool where
  queue : List (Int × Int)
  capacity : Nat
  deriving DecidableEq, Repr

/-- Modelled from the spec: `threadpool::add`, the spec's `submit(task)`: "if the
queue is at capacity, returns a QueueFull result immediately without blocking
the caller"; otherwise the task goes to the back of the FIFO queue.  The result
is `true` when queued and `false` for QueueFull. -/
def threadpool.add (p : threadpool) (task : Int × Int) : Bool × threadpool :=
  if p.capacity ≤ p.queue.length then (false, p)
  else (true, { p with queue := p.queue ++ [task] })

/-- The environment of the reactor: what the kernel and the pool will answer,
and the log of calls made so far.

* `pending`: the results of the coming `accept` calls on the listener, in
  order, each a pair of the return value and the `errno` left when that value
  is negative: a non-negative return value is the descriptor of a connection
  waiting in the backlog, a negative one is a failing `accept`.  With nothing
  pending `accept` on the (non-blocking) listener returns `-1` with `EAGAIN`.
* `errno`: the value of `errno` left by the last failing call.
* `getfl fd`: what `fcntl(fd, F_GETFL)` returns.
* `ctl op fd`: what `epoll_ctl(_, op, fd, _)` returns.
* `pool`: the worker pool. -/
structure Env where
  pending : List (Int × Int)
  errno : Int
  getfl : Int → Int
  ctl : Int → Int → Int
  pool : threadpool
  calls : List Call

/-- Append one call to the log. -/
def Env.log (env : Env) (c : Call) : Env :=
  { env with calls := env.calls ++ [c] }

/-! ## The helper functions of `httpserver.cpp` -/

/-- `setnonblocking(fd)`: read the flags, write them back with `O_NONBLOCK`
added, return the old flags. -/
def setnonblocking (fd : Int) (env : Env) : Int × Env :=
  let old_options := env.getfl fd
  let env := env.log (Call.fcntl_getfl fd old_options)
  let env := env.log (Call.fcntl_setfl fd (Int.lor old_options O_NONBLOCK))
  (old_options, env)

/-- The event mask computed by `add_sockfd`:
`EPOLLIN | EPOLLET | EPOLLRDHUP`, with `EPOLLONESHOT` or-ed in when
`is_one_shot`. -/
def add_sockfd_events (is_one_shot : Bool) : Nat :=
  let events := EPOLLIN ||| EPOLLET ||| EPOLLRDHUP
  if is_one_shot then events ||| EPOLLONESHOT else events

/-- `add_sockfd(epollfd, sockfd, is_one_shot)`: `epoll_ctl(EPOLL_CTL_ADD)` with
the mask above and `data.fd = sockfd` (its result is not looked at), then
`setnonblocking(sockfd)`. -/
def add_sockfd (epollfd sockfd : Int) (is_one_shot : Bool) (env : Env) : Env :=
  let events := add_sockfd_events is_one_shot
  let env := env.log
    (Call.epoll_ctl epollfd EPOLL_CTL_ADD sockfd events sockfd (env.ctl EPOLL_CTL_ADD sockfd))
  (setnonblocking sockfd env).2

/-- `rm_sockfd(epollfd, sockfd)`: `epoll_ctl(EPOLL_CTL_DEL)` then `close`. -/
def rm_sockfd (epollfd sockfd : Int) (env : Env) : Env :=
  let env := env.log
    (Call.epoll_ctl epollfd EPOLL_CTL_DEL sockfd 0 0 (env.ctl EPOLL_CTL_DEL sockfd))
  env.log (Call.close sockfd)

/-- The event mask computed by `modfd`: `ev | EPOLLET | EPOLLONESHOT | EPOLLRDHUP`. -/
def modfd_events (ev : Nat) : Nat :=
  ev ||| EPOLLET ||| EPOLLONESHOT ||| EPOLLRDHUP

/-- `modfd(epollfd, sockfd, ev)`: `epoll_ctl(EPOLL_CTL_MOD)` with the mask above
and `data.fd = sockfd`. -/
def modfd (epollfd sockfd : Int) (ev : Nat) (env : Env) : Env :=
  env.log
    (Call.epoll_ctl epollfd EPOLL_CTL_MOD sockfd (modfd_events ev) sockfd
      (env.ctl EPOLL_CTL_MOD sockfd))

/-! ## The event loop of `main` -/

/-- `accept(listenfd, ...)`: the next pending result, or `-1` with `EAGAIN`
when nothing is pending; a negative result leaves its `errno`. -/
def accept (listenfd : Int) (env : Env) : Int × Env :=
  match env.pending with
  | [] => (-1, { env with errno := EAGAIN }.log (Call.accept listenfd (-1)))
  | r :: rest =>
    (r.1, { env with pending := rest, errno := if r.1 < 0 then r.2 else env.errno }.log
      (Call.accept listenfd r.1))

/-- `pool->add(new http_process(epollfd, sockfd))`; the result of `add` is
discarded by the caller. -/
def pool_add (epollfd sockfd : Int) (env : Env) : Env :=
  let r := env.pool.add (epollfd, sockfd)
  { env with pool := r.2 }.log (Call.pool_add epollfd sockfd r.1)

/-- The body of the `for` loop of `main` for one entry `ev = evlist[i]`. -/
def handle_event (listenfd epollfd : Int) (ev : epoll_event) (env : Env) : Env :=
  let sockfd := ev.fd
  if sockfd = listenfd then
    let r := accept listenfd env
    let connfd := r.1
    if connfd < 0 then
      r.2.log (Call.cout_error r.2.errno)
    else
      add_sockfd epollfd connfd true r.2
  else if ev.events &&& (EPOLLRDHUP ||| EPOLLHUP ||| EPOLLERR) ≠ 0 then
    env.log (Call.close sockfd)
  else if ev.events &&& EPOLLIN ≠ 0 then
    pool_add epollfd sockfd env
  else
    env

/-- The loop `for(int i = 0; i < ready; ++i)`: `for_events i k` runs the body
for the indices `i, i+1, ..., i+k-1` of `evlist`. -/
def for_events (listenfd epollfd : Int) (evlist : Nat → epoll_event) :
    Nat → Nat → Env → Env
  | _, 0, env => env
  | i, k + 1, env =>
    for_events listenfd epollfd evlist (i + 1) k (handle_event listenfd epollfd (evlist i) env)

/-- What one `epoll_wait` call gives: its return value, the `errno` it leaves
when it fails, and the content of the array `evlist` after the call. -/
structure WaitResult where
  ready : Int
  errno : Int
  evlist : Nat → epoll_event

/-- The loop `while(true)` of `main`, run against the list of the results of
the successive `epoll_wait` calls.  The second component tells whether the
loop was left through `break`; it is `false` when the list is used up and the
program is blocked in `epoll_wait`. -/
def event_loop (listenfd epollfd : Int) : List WaitResult → Env → Env × Bool
  | [], env => (env, false)
  | w :: ws, env =>
    let env := { env with errno := if w.ready < 0 then w.errno else env.errno }.log
      (Call.epoll_wait epollfd MAX_EVENTS w.ready)
    if w.ready < 0 ∧ env.errno ≠ EINTR then
      (env.log (Call.cout "epoll_wait failure"), true)
    else
      event_loop listenfd epollfd ws
        (for_events listenfd epollfd w.evlist 0 w.ready.toNat env)

/-! ## Start-up and exit of `main` -/

/-- How `new threadpool<http_process>()` ends: the pool is built, or the
constructor throws a `std::runtime_error` with the given `what()` text. -/
inductive PoolCtor where
  | built
  | runtime_error (what : String)
  deriving DecidableEq, Repr

/-- What `delete pool` does in the `catch` block of `main`.  The pointer `pool`
is declared without an initialiser and the throwing `new` never assigns it, so
the `delete` acts on an indeterminate pointer and the language leaves the
outcome open: the call may come back (the pointer happens to be null, or the
compiler drops the call) or the process is killed by a signal (`SIGABRT` from
the allocator, `SIGSEGV`). -/
inductive DeleteUnassigned where
  | returns
  | killed (signo : Int)
  deriving DecidableEq, Repr

/-- The inputs of `main` before the loop: the command line and the results of
the start-up calls.  `port` is `atoi(argv[1])`; `delete_unassigned` is what the
`delete pool` of the `catch` block does. -/
structure Startup where
  argc : Int
  argv0 : String
  port : Int
  sigaction_ret : Int
  pool_ctor : PoolCtor
  delete_unassigned : DeleteUnassigned
  socket_ret : Int
  setsockopt_ret : Int
  bind_ret : Int
  listen_ret : Int
  epoll_create_ret : Int

/-- How a run of `main` ends: `return status`, a failed `assert` (the process
is killed by `abort()`), killed by a signal, or still blocked in `epoll_wait`. -/
inductive Outcome where
  | exit (status : Int)
  | abort
  | killed (signo : Int)
  | blocked
  deriving DecidableEq, Repr

/-- Whether the run has ended with a non-zero status: a `return` whose value
is not `0` in its low eight bits, or a death by signal. -/
def Outcome.nonzero : Outcome → Bool
  | Outcome.exit status => decide (status % 256 ≠ 0)
  | Outcome.abort => true
  | Outcome.killed _ => true
  | Outcome.blocked => false

/-- The port `main` binds: `servaddr.sin_port = htons(port)` takes the low 16
bits of `port`. -/
def bound_port (port : Int) : Int := port % 65536

/-- `addsig(signo, handler)`: `assert(sigaction(signo, &sa, NULL) != -1)`; the
result is `false` when the assertion fails. -/
def addsig (signo : Int) (ret : Int) (env : Env) : Bool × Env :=
  (decide (ret ≠ -1), env.log (Call.sigaction signo ret))

/-- `main(argc, argv)`, with assertions enabled (no `NDEBUG`): a failed
`assert` ends the run with `Outcome.abort`.  In the `catch` block the source
applies `delete pool` to the pointer that was never assigned: when that call
kills the process the run ends there, and only when it comes back is the
`return -1` reached. -/
def main (s : Startup) (ws : List WaitResult) (env : Env) : Outcome × Env :=
  if s.argc ≠ 2 then
    (Outcome.exit 0, env.log (Call.cout ("usage: " ++ s.argv0 ++ " <port>")))
  else
    let r := addsig SIGPIPE s.sigaction_ret env
    if r.1 = false then (Outcome.abort, r.2) else
    let env := r.2
    match s.pool_ctor with
    | PoolCtor.runtime_error what =>
      let env := ((env.log (Call.pool_new false)).log (Call.cout what)).log
        Call.pool_delete_unassigned
      match s.delete_unassigned with
      | DeleteUnassigned.killed signo => (Outcome.killed signo, env)
      | DeleteUnassigned.returns => (Outcome.exit (-1), env)
    | PoolCtor.built =>
      let env := env.log (Call.pool_new true)
      let listenfd := s.socket_ret
      let env := env.log (Call.socket listenfd)
      if ¬ (listenfd ≥ 0) then (Outcome.abort, env) else
      let env := env.log (Call.setsockopt listenfd s.setsockopt_ret)
      if ¬ (s.setsockopt_ret ≥ 0) then (Outcome.abort, env) else
      let env := env.log (Call.bind listenfd (bound_port s.port) s.bind_ret)
      if ¬ (s.bind_ret ≥ 0) then (Outcome.abort, env) else
      let env := env.log (Call.listen listenfd 5 s.listen_ret)
      if ¬ (s.listen_ret ≥ 0) then (Outcome.abort, env) else
      let epollfd := s.epoll_create_ret
      let env := env.log (Call.epoll_create 5 epollfd)
      if ¬ (epollfd ≠ -1) then (Outcome.abort, env) else
      let env := add_sockfd epollfd listenfd false env
      let r := event_loop listenfd epollfd ws env
      if r.2 then
        (Outcome.exit 0,
          ((r.1.log (Call.close listenfd)).log (Call.close epollfd)).log Call.pool_delete)
      else
        (Outcome.blocked, r.1)

/-! ## Reading the call log -/

/-- The calls logged between `env` and a later `env1`. -/
def new_calls (env env1 : Env) : List Call :=
  env1.calls.drop env.calls.length

/-- The tasks handed to the pool in a list of calls, as `(epollfd, sockfd)`. -/
def submitted : List Call → List (Int × Int)
  | [] => []
  | Call.pool_add e s _ :: cs => (e, s) :: submitted cs
  | _ :: cs => submitted cs

/-- Whether the call is an `epoll_ctl` with operation `op` on descriptor `fd`. -/
def Call.is_ctl (op fd : Int) : Call → Bool
  | Call.epoll_ctl _ op1 fd1 _ _ _ => decide (op1 = op ∧ fd1 = fd)
  | _ => false

/-- Whether the call is `close(fd)`. -/
def Call.is_close (fd : Int) : Call → Bool
  | Call.close fd1 => decide (fd1 = fd)
  | _ => false

/-- Whether the call is an `accept`. -/
def Call.is_accept : Call → Bool
  | Call.accept _ _ => true
  | _ => false

/-- Whether the call writes to `std::cout`. -/
def Call.is_cout : Call → Bool
  | Call.cout _ => true
  | Call.cout_error _ => true
  | _ => false

/-- An environment for examples: nothing pending, `F_GETFL` gives `O_RDWR` (2),
every `epoll_ctl` succeeds, a pool with room for `capacity` tasks. -/
def Env.sample (pending : List (Int × Int)) (capacity : Nat) : Env :=
  { pending := pending, errno := 0, getfl := fun _ => 2, ctl := fun _ _ => 0,
    pool := { queue := [], capacity := capacity }, calls := [] }

/-- Whether a list of calls contains `close(fd)`. -/
def closes (fd : Int) (cs : List Call) : Bool :=
  cs.any (Call.is_close fd)

/-- Whether a list of calls follows up on connection `fd` beyond one
submission: a second `pool->add` for it (retry), an `epoll_ctl` `MOD` on it
(re-arm), or a `DEL` or `close` of it (drop). -/
def follows_up (fd : Int) (cs : List Call) : Bool :=
  decide (2 ≤ (submitted cs).countP (fun t => decide (t.2 = fd))) ||
    cs.any (fun c => c.is_ctl EPOLL_CTL_MOD fd || c.is_ctl EPOLL_CTL_DEL fd || c.is_close fd)

/-- Whether the call is an `epoll_wait`. -/
def Call.is_wait : Call → Bool
  | Call.epoll_wait _ _ _ => true
  | _ => false

/-- A full `evlist` array whose first entries are the given events. -/
def evlist_of (evs : List epoll_event) : Nat → epoll_event :=
  fun i => evs.getD i ⟨0, 0⟩

/-- A start-up in which every call succeeds: listener fd 3, epoll fd 4. -/
def Startup.sample : Startup :=
  { argc := 2, argv0 := "server", port := 8080, sigaction_ret := 0,
    pool_ctor := PoolCtor.built, delete_unassigned := DeleteUnassigned.killed 6,
    socket_ret := 3, setsockopt_ret := 0, bind_ret := 0,
    listen_ret := 0, epoll_create_ret := 4 }

/-- The environment in which `main` enters its loop when every start-up call
has succeeded: the start-up calls logged and the listener registered. -/
def started (s : Startup) (env : Env) : Env :=
  add_sockfd s.epoll_create_ret s.socket_ret false
    (((((((env.log (Call.sigaction SIGPIPE s.sigaction_ret)).log
      (Call.pool_new true)).log (Call.socket s.socket_ret)).log
      (Call.setsockopt s.socket_ret s.setsockopt_ret)).log
      (Call.bind s.socket_ret (bound_port s.port) s.bind_ret)).log
      (Call.listen s.socket_ret 5 s.listen_ret)).log
      (Call.epoll_create 5 s.epoll_create_ret))

/-- The environment the loop is left in by a fatal `epoll_wait`, one that
returns a negative count with an `errno` other than `EINTR`: the wait and the
line `"epoll_wait failure"` are logged, nothing else happens. -/
def fatal_wait (epollfd : Int) (w : WaitResult) (env : Env) : Env :=
  ({ env with errno := w.errno }.log (Call.epoll_wait epollfd MAX_EVENTS w.ready)).log
    (Call.cout "epoll_wait failure")

/-- One turn of the loop `while(true)` that does not leave it: the wait is
logged and the `for` loop runs over the events it returned. -/
def wait_turn (listenfd epollfd : Int) (w : WaitResult) (env : Env) : Env :=
  for_events listenfd epollfd w.evlist 0 w.ready.toNat
    ({ env with errno := if w.ready < 0 then w.errno else env.errno }.log
      (Call.epoll_wait epollfd MAX_EVENTS w.ready))

/-- Run the loop body over a list of events, in order. -/
def handle_all (listenfd epollfd : Int) (evs : List epoll_event) (env : Env) : Env :=
  evs.foldl (fun e ev => handle_event listenfd epollfd ev e) env

/-- The first `n` entries of `evlist`, in order. -/
def first_events (evlist : Nat → epoll_event) (n : Nat) : List epoll_event :=
  (List.range n).map evlist

/-- The sample environment with a pool of capacity 1 whose queue already holds
the task of connection 9: the queue is full. -/
def Env.sample_full : Env :=
  { Env.sample [] 1 with pool := { queue := [(4, 9)], capacity := 1 } }

/-- The sample environment with every `epoll_ctl` call failing (`-1`). -/
def Env.sample_ctl_fails (pending : List (Int × Int)) (capacity : Nat) : Env :=
  { Env.sample pending capacity with ctl := fun _ _ => -1 }

/-- The sample start-up with another argument count. -/
def Startup.sample_argc (argc : Int) : Startup :=
  { Startup.sample with argc := argc }

/-- The sample start-up with a throwing pool constructor, the `delete pool` of
the `catch` block killing the process with `SIGABRT` (6). -/
def Startup.sample_pool_throws : Startup :=
  { Startup.sample with pool_ctor := PoolCtor.runtime_error "thread create failed" }

/-- The same, with the `delete pool` coming back. -/
def Startup.sample_pool_throws_returns : Startup :=
  { Startup.sample_pool_throws with delete_unassigned := DeleteUnassigned.returns }

/-- The sample start-up with a failing `bind`. -/
def Startup.sample_bind_fails : Startup :=
  { Startup.sample with bind_ret := -1 }

/-! ## The request parser (`http_parser.h`)

`http_parser.h` declares the result codes, the request record and the class
`http_parser`; the bodies of `parse_line`, `parse_requestline` and
`parse_headers` (`http_parser.cpp`) are not among the sources.  The types
below are those of the header; the parsing functions are modelled from the
spec's section on the RequestParser state machine.  A `std::string` is a list
of characters. -/

/-- The enumeration `HTTP_CODE` of `http_parser.h`. -/
inductive HTTP_CODE where
  | MORE_DATA
  | GET_REQUEST
  | REQUEST_ERROR
  | FORBIDDEN_REQUEST
  | INTERNAL_ERROR
  | CLOSE_CONNECTION
  deriving DecidableEq, Repr

/-- The struct `http_request` of `http_parser.h`. -/
structure http_request where
  method : List Char
  uri : List Char
  version : List Char
  host : List Char
  connection : List Char
  deriving DecidableEq, Repr

/-- Modelled from the spec: the phase of `ParserState`,
`RequestLine → Headers → Done`, with `Error` reachable from either. -/
inductive Phase where
  | RequestLine
  | Headers
  | Done
  | Error
  deriving DecidableEq, Repr

/-- Modelled from the spec: `ParserState`, "{phase, consumed offset into
buffer, partially built ParsedRequest}", which persists between the parser
invocations of one connection. -/
structure ParserState where
  phase : Phase
  offset : Nat
  parsed : http_request
  deriving DecidableEq, Repr

/-- Modelled from the spec: `LineScanResult`, the tri-state
"{Complete(line), Incomplete, Malformed}" (the header's `LINE_STATUS`:
`LINE_OK`, `LINE_MORE`, `LINE_ERROR`). -/
inductive LineScanResult where
  | Complete (line : List Char)
  | Incomplete
  | Malformed
  deriving DecidableEq, Repr

/-- Modelled from the spec: line scanning (the body of
`http_parser::parse_line` is not among the sources).  Scan the unconsumed
bytes for a CR-LF pair: `Complete(line)` when found, the terminator stripped;
`Incomplete` when the buffer is exhausted with no terminator, which includes a
CR that is the last byte received so far; `Malformed` when a CR is followed by
a byte other than LF. -/
def scan_line : List Char → LineScanResult
  | [] => LineScanResult.Incomplete
  | c :: rest =>
    if c = '\r' then
      match rest with
      | [] => LineScanResult.Incomplete
      | d :: _ => if d = '\n' then LineScanResult.Complete [] else LineScanResult.Malformed
    else
      match scan_line rest with
      | LineScanResult.Complete line => LineScanResult.Complete (c :: line)
      | r => r

/-- Split a line at every occurrence of `sep`. -/
def split_on (sep : Char) : List Char → List (List Char)
  | [] => [[]]
  | c :: rest =>
    if c = sep then [] :: split_on sep rest
    else
      match split_on sep rest with
      | [] => [[c]]
      | t :: ts => (c :: t) :: ts

/-- The method names: the enumerators of `METHOD` in `http_parser.h`, which are
the spec's fixed set `{GET, POST, HEAD, PUT, DELETE, TRACE, OPTIONS, CONNECT,
PATCH}`. -/
def METHODS : List (List Char) :=
  ["GET".toList, "POST".toList, "HEAD".toList, "PUT".toList, "DELETE".toList, "TRACE".toList,
    "OPTIONS".toList, "CONNECT".toList, "PATCH".toList]

/-- Modelled from the spec: the `RequestLine` phase (the body of
`http_parser::parse_requestline` is not among the sources): "split the line on
single spaces into exactly three tokens {method, uri, version}; any other
token count is Malformed", and the method must be one of the fixed set,
compared case-sensitively.  `none` is the parse error. -/
def parse_requestline (line : List Char) (r : http_request) : Option http_request :=
  match split_on ' ' line with
  | [m, u, v] => if m ∈ METHODS then some { r with method := m, uri := u, version := v } else none
  | _ => none

/-- Drop the leading spaces. -/
def trim_left : List Char → List Char
  | [] => []
  | c :: rest => if c = ' ' then trim_left rest else c :: rest

/-- Split a line at its first `':'`; `none` when it has none. -/
def split_colon : List Char → Option (List Char × List Char)
  | [] => none
  | c :: rest =>
    if c = ':' then some ([], rest)
    else
      match split_colon rest with
      | some (n, v) => some (c :: n, v)
      | none => none

/-- Lower-case a header name, for the case-insensitive comparison. -/
def lower (s : List Char) : List Char := s.map Char.toLower

/-- Modelled from the spec: one non-empty line of the `Headers` phase (the body
of `http_parser::parse_headers` is not among the sources): the line "is split
on the first `:`; the value has leading spaces trimmed"; `Host` and
`Connection`, "matched case-insensitively", fill their field; other headers
are discarded.  A line without `:` does not fit the grammar
`Name ":" [SP] Value` and is the parse error `none`. -/
def parse_header (line : List Char) (r : http_request) : Option http_request :=
  match split_colon line with
  | none => none
  | some (name, value) =>
    if lower name = "host".toList then some { r with host := trim_left value }
    else if lower name = "connection".toList then some { r with connection := trim_left value }
    else some r

/-- What one turn of the parser does: stop with a result code, or go on to the
next line. -/
inductive Step where
  | stop (st : ParserState) (code : HTTP_CODE)
  | next (st : ParserState)

/-- Modelled from the spec: one turn of the state machine on the accumulated
buffer `buf`.  In `Done` and `Error` the parser has its result.  Otherwise one
line is scanned "from the last consumed offset": `Incomplete` is "need more
data" with the state untouched (no offset advance), `Malformed` and a line that
does not parse are the syntax error, a complete line is consumed (the offset
moves past its terminator), and the empty line in `Headers` gives `Done`. -/
def step (buf : List Char) (st : ParserState) : Step :=
  match st.phase with
  | Phase.Done => Step.stop st HTTP_CODE.GET_REQUEST
  | Phase.Error => Step.stop st HTTP_CODE.REQUEST_ERROR
  | Phase.RequestLine =>
    match scan_line (buf.drop st.offset) with
    | LineScanResult.Incomplete => Step.stop st HTTP_CODE.MORE_DATA
    | LineScanResult.Malformed =>
      Step.stop { st with phase := Phase.Error } HTTP_CODE.REQUEST_ERROR
    | LineScanResult.Complete line =>
      match parse_requestline line st.parsed with
      | none => Step.stop { st with phase := Phase.Error } HTTP_CODE.REQUEST_ERROR
      | some r =>
        Step.next { phase := Phase.Headers, offset := st.offset + line.length + 2, parsed := r }
  | Phase.Headers =>
    match scan_line (buf.drop st.offset) with
    | LineScanResult.Incomplete => Step.stop st HTTP_CODE.MORE_DATA
    | LineScanResult.Malformed =>
      Step.stop { st with phase := Phase.Error } HTTP_CODE.REQUEST_ERROR
    | LineScanResult.Complete line =>
      if line = [] then
        Step.stop { st with phase := Phase.Done, offset := st.offset + 2 } HTTP_CODE.GET_REQUEST
      else
        match parse_header line st.parsed with
        | none => Step.stop { st with phase := Phase.Error } HTTP_CODE.REQUEST_ERROR
        | some r =>
          Step.next { phase := Phase.Headers, offset := st.offset + line.length + 2, parsed := r }

/-- Turns of the parser until it stops, at most `fuel` of them. -/
def parse_loop : Nat → List Char → ParserState → ParserState × HTTP_CODE
  | 0, _, st => (st, HTTP_CODE.MORE_DATA)
  | fuel + 1, buf, st =>
    match step buf st with
    | Step.stop st1 code => (st1, code)
    | Step.next st1 => parse_loop fuel buf st1

/-- Modelled from the spec: one invocation of the parser for a connection, on
its accumulated buffer and its persisted state.  Every line consumed moves the
offset by at least two bytes, so `buf.length + 1` turns are always enough
(`parse_loop_fuel`). -/
def resume (buf : List Char) (st : ParserState) : ParserState × HTTP_CODE :=
  parse_loop (buf.length + 1) buf st

/-- The state of a connection on which nothing has been parsed yet. -/
def ParserState.initial : ParserState :=
  { phase := Phase.RequestLine, offset := 0, parsed := ⟨[], [], [], [], []⟩ }

/-- Modelled from the spec: a request delivered in chunks.  Each chunk is
appended to the connection's buffer and the parser is invoked with the state
the previous invocation left; the result lists, per invocation, the state and
the code it returned. -/
def feed : List Char → ParserState → List (List Char) → List (ParserState × HTTP_CODE)
  | _, _, [] => []
  | buf, st, c :: cs =>
    (resume (buf ++ c) st) :: feed (buf ++ c) (resume (buf ++ c) st).1 cs

/-- The header lines, each followed by CR-LF, then the empty line. -/
def header_text : List (List Char) → List Char
  | [] => ['\r', '\n']
  | h :: hs => h ++ ('\r' :: '\n' :: header_text hs)

/-- The bytes of the request `METHOD SP URI SP VERSION CRLF`, the header lines,
and the terminating empty line. -/
def request_text (m u v : List Char) (hs : List (List Char)) : List Char :=
  m ++ (' ' :: (u ++ (' ' :: (v ++ ('\r' :: '\n' :: header_text hs)))))

/-- Modelled from the spec: a well-formed request, by the wire format
"request line grammar `METHOD SP URI SP VERSION CRLF`; headers grammar
`Name ":" [SP] Value CRLF` repeated; an empty `CRLF` line terminates
headers": a method of the fixed set, a URI and a version without space or CR,
header lines that have a `:` and no CR. -/
def well_formed (req : List Char) : Prop :=
  ∃ (m u v : List Char) (hs : List (List Char)),
    m ∈ METHODS ∧ ' ' ∉ u ∧ '\r' ∉ u ∧ ' ' ∉ v ∧ '\r' ∉ v ∧
    (∀ h ∈ hs, ':' ∈ h ∧ '\r' ∉ h) ∧
    req = request_text m u v hs

/-- The example request of the spec. -/
def Request.sample : List Char :=
  "GET /index HTTP/1.1\r\nHost: example.com\r\nConnection: keep-alive\r\n\r\n".toList

/-- The example request cut into three chunks, the second ending between CR
and LF. -/
def Request.sample_chunks : List (List Char) :=
  ["GET /ind".toList, "ex HTTP/1.1\r".toList,
    "\nHost: example.com\r\nConnection: keep-alive\r\n\r\n".toList]

/-! ## The running system: reactor, kernel tables and workers -/

/-- Modelled from the spec: one entry of the multiplexer's registration table
(the kernel's epoll interest list is not code of the repository).  `armed`
is the spec's "one-shot-armed flag": a one-shot registration "auto-disables
after firing once, requiring explicit re-arming before further events for
that descriptor are delivered". -/
structure Reg where
  events : Nat
  data : Int
  armed : Bool
  deriving DecidableEq, Repr

/-- Modelled from the spec: the action `RequestHandler.process` returns, which
the worker applies to the registration (`http_process` is not among the
sources): `{REARM_READ, SWITCH_TO_WRITE, CLOSE}`. -/
inductive NextAction where
  | REARM_READ
  | SWITCH_TO_WRITE
  | CLOSE
  deriving DecidableEq, Repr

/-- The state of the running server: the reactor's environment (pending
connections, the pool with its queue, the call log), the kernel's tables
(open descriptors, registrations), the events of the last `epoll_wait` still
to be handled, the connections whose task a worker is executing, and the
connections for which `pool->add` was called and that have not been re-armed
or closed since. -/
structure Sys where
  listenfd : Int
  epollfd : Int
  env : Env
  opened : Int → Bool
  regs : Int → Option Reg
  batch : List epoll_event
  running : List Int
  dispatched : List Int

/-- The connections with a task in flight: queued in the pool or being
executed by a worker. -/
def Sys.in_flight (s : Sys) : List Int :=
  s.env.pool.queue.map Prod.snd ++ s.running

/-- Modelled from the spec: the effect of one logged call on the kernel's
tables.  `accept` opens the returned descriptor; `EPOLL_CTL_ADD` registers an
open, unregistered descriptor, armed; `EPOLL_CTL_MOD` replaces the mask of a
registered descriptor and arms it ("re-arms a one-shot registration");
`EPOLL_CTL_DEL` removes the registration; `close` closes the descriptor and
drops its registration.  An `epoll_ctl` whose logged result is negative has
no effect. -/
def kernel_call (c : Call) (s : Sys) : Sys :=
  match c with
  | Call.accept _ r =>
    if 0 ≤ r then { s with opened := Function.update s.opened r true } else s
  | Call.epoll_ctl _ op fd events data ret =>
    if ret < 0 then s
    else if op = EPOLL_CTL_ADD then
      if s.opened fd = true ∧ s.regs fd = none then
        { s with regs := Function.update s.regs fd (some ⟨events, data, true⟩) }
      else s
    else if op = EPOLL_CTL_MOD then
      if s.regs fd ≠ none then
        { s with regs := Function.update s.regs fd (some ⟨events, data, true⟩) }
      else s
    else if op = EPOLL_CTL_DEL then
      { s with regs := Function.update s.regs fd none }
    else s
  | Call.close fd =>
    { s with opened := Function.update s.opened fd false,
             regs := Function.update s.regs fd none }
  | _ => s

/-- Apply the calls of a list to the kernel's tables, in order. -/
def kernel_calls (cs : List Call) (s : Sys) : Sys :=
  cs.foldl (fun k c => kernel_call c k) s

/-- Whether descriptor `fd` has an armed registration. -/
def Sys.armed (s : Sys) (fd : Int) : Bool :=
  match s.regs fd with
  | some r => r.armed
  | none => false

/-- The event data the kernel reports for the registration of `fd`. -/
def Sys.data (s : Sys) (fd : Int) : Int :=
  match s.regs fd with
  | some r => r.data
  | none => fd

/-- One move of the system. -/
inductive Action where
  /-- `epoll_wait` returns: the registrations `fired` (by descriptor, with the
  event bits reported for each). -/
  | wait (fired : List (Int × Nat))
  /-- The reactor runs the loop body on the next event of the batch. -/
  | handle
  /-- A worker takes the task at the head of the queue. -/
  | take
  /-- The worker executing the task of connection `fd` applies the handler's
  action. -/
  | finish (fd : Int) (act : NextAction)
  deriving DecidableEq, Repr

/-- Modelled from the spec: `epoll_wait` reports only armed registrations, each
at most once, and a one-shot registration that fires is disarmed. -/
def exec_wait (fired : List (Int × Nat)) (s : Sys) : Sys :=
  if s.batch = [] ∧ (fired.map Prod.fst).Nodup ∧ fired.all (fun p => s.armed p.1) = true then
    { s with
      env := s.env.log (Call.epoll_wait s.epollfd MAX_EVENTS fired.length)
      batch := fired.map (fun p => ⟨p.2, s.data p.1⟩)
      regs := fun fd =>
        match s.regs fd with
        | some r =>
          if fd ∈ fired.map Prod.fst ∧ r.events &&& EPOLLONESHOT ≠ 0 then
            some { r with armed := false }
          else some r
        | none => none }
  else s

/-- Whether every descriptor returned by an `accept` in the list was unused
before: the kernel hands out only descriptors that are not open. -/
def fresh_accepts (s : Sys) (cs : List Call) : Bool :=
  cs.all (fun c =>
    match c with
    | Call.accept _ r => decide (r < 0) || !(s.opened r)
    | _ => true)

/-- The reactor handles the next event of the batch: the loop body
`handle_event` of `main` runs on it, the kernel's tables follow its calls, and
every `pool->add` call marks its connection dispatched. -/
def exec_handle (s : Sys) : Sys :=
  match s.batch with
  | [] => s
  | ev :: rest =>
    let env1 := handle_event s.listenfd s.epollfd ev s.env
    let cs := new_calls s.env env1
    if fresh_accepts s cs = true then
      kernel_calls cs
        { s with env := env1, batch := rest,
                 dispatched := (submitted cs).map Prod.snd ++ s.dispatched }
    else s

/-- Modelled from the spec: a worker pops one task in FIFO order. -/
def exec_take (s : Sys) : Sys :=
  match s.env.pool.queue with
  | [] => s
  | t :: q =>
    { s with env := { s.env with pool := { s.env.pool with queue := q } },
             running := t.2 :: s.running }

/-- Modelled from the spec: the worker applies the handler's action to the
connection of its task, with the helpers of `httpserver.cpp`: `REARM_READ`
is `modfd(epollfd, fd, EPOLLIN)`, `SWITCH_TO_WRITE` is
`modfd(epollfd, fd, EPOLLOUT)`, `CLOSE` is `rm_sockfd(epollfd, fd)`; the task
is then over. -/
def exec_finish (fd : Int) (act : NextAction) (s : Sys) : Sys :=
  if fd ∈ s.running then
    let env1 :=
      match act with
      | NextAction.REARM_READ => modfd s.epollfd fd EPOLLIN s.env
      | NextAction.SWITCH_TO_WRITE => modfd s.epollfd fd EPOLLOUT s.env
      | NextAction.CLOSE => rm_sockfd s.epollfd fd s.env
    kernel_calls (new_calls s.env env1)
      { s with env := env1, running := s.running.erase fd,
               dispatched := s.dispatched.erase fd }
  else s

/-- One move; a move that is not possible in the state leaves it unchanged. -/
def exec (a : Action) (s : Sys) : Sys :=
  match a with
  | Action.wait fired => exec_wait fired s
  | Action.handle => exec_handle s
  | Action.take => exec_take s
  | Action.finish fd act => exec_finish fd act s

/-- Run a sequence of moves. -/
def run (as : List Action) (s : Sys) : Sys :=
  as.foldl (fun k a => exec a k) s

/-- The state in which `main` enters its loop: the listener and the epoll
descriptor are open, the listener has been registered with
`add_sockfd(epollfd, listenfd, false)`, no event is pending, the pool is idle. -/
def Sys.init (listenfd epollfd : Int) (env : Env) : Sys :=
  kernel_calls (new_calls env (add_sockfd epollfd listenfd false env))
    { listenfd := listenfd, epollfd := epollfd,
      env := add_sockfd epollfd listenfd false env,
      opened := fun fd => decide (fd = listenfd ∨ fd = epollfd),
      regs := fun _ => none, batch := [], running := [], dispatched := [] }

/-- A run for examples, from the state with connections 5 and 6 pending on
listener 3: the listener fires and 5 is accepted; 5 fires and is dispatched; a
second report for 5, now disarmed, is not possible; a worker takes the task and
re-arms 5; 5 and the listener fire together, 5 is dispatched again and 6 is
accepted. -/
def Action.sample : List Action :=
  [Action.wait [(3, EPOLLIN)], Action.handle, Action.wait [(5, EPOLLIN)], Action.handle,
    Action.wait [(5, EPOLLIN)], Action.take, Action.finish 5 NextAction.REARM_READ,
    Action.wait [(5, EPOLLIN), (3, EPOLLIN)], Action.handle, Action.handle]

/-- A state for examples: from the start of the loop with connection 7 pending
on listener 3, the listener fires, 7 is accepted and registered, and the next
`epoll_wait` reports 7 with `EPOLLIN` and `EPOLLRDHUP` both set. -/
def Sys.sample_hangup : Sys :=
  run [Action.wait [(3, EPOLLIN)], Action.handle, Action.wait [(7, EPOLLIN ||| EPOLLRDHUP)]]
    (Sys.init 3 4 (Env.sample [(7, 0)] 8))

/-- The facts that hold in every state the system reaches. -/
structure Inv (s : Sys) : Prop where
  nodup_dispatched : s.dispatched.Nodup
  nodup_in_flight : s.in_flight.Nodup
  in_flight_dispatched : ∀ fd ∈ s.in_flight, fd ∈ s.dispatched
  dispatched_open : ∀ fd ∈ s.dispatched, s.opened fd = true ∧ fd ≠ s.listenfd
  dispatched_unarmed : ∀ fd ∈ s.dispatched, s.armed fd = false
  dispatched_not_batch : ∀ fd ∈ s.dispatched, ∀ ev ∈ s.batch, ev.fd ≠ fd
  batch_open : ∀ ev ∈ s.batch, ev.fd ≠ s.listenfd →
    s.opened ev.fd = true ∧ s.armed ev.fd = false
  batch_nodup : (s.batch.map (fun ev => ev.fd)).Nodup
  regs_ok : ∀ fd r, s.regs fd = some r →
    s.opened fd = true ∧ r.data = fd ∧ (fd ≠ s.listenfd → r.events &&& EPOLLONESHOT ≠ 0)
  listen_open : s.opened s.listenfd = true

/-! # Theorems -/


/-! ## Bit masks -/

theorem or_eq_zero_iff (a b : Nat) : a ||| b = 0 ↔ a = 0 ∧ b = 0 := by
  constructor
  · intro h
    have hbit : ∀ i, (a.testBit i || b.testBit i) = false := by
      intro i
      rw [← Nat.testBit_or, h, Nat.zero_testBit]
    constructor
    · apply Nat.eq_of_testBit_eq
      intro i
      have := hbit i
      rw [Nat.zero_testBit]
      cases ha : a.testBit i
      · rfl
      · rw [ha] at this; simp at this
    · apply Nat.eq_of_testBit_eq
      intro i
      have := hbit i
      rw [Nat.zero_testBit]
      cases hb : b.testBit i
      · rfl
      · rw [hb] at this; simp at this
  · rintro ⟨rfl, rfl⟩; rfl

theorem and_flags_eq_zero (x : Nat) :
    x &&& (EPOLLRDHUP ||| EPOLLHUP ||| EPOLLERR) = 0 ↔
      x &&& EPOLLRDHUP = 0 ∧ x &&& EPOLLHUP = 0 ∧ x &&& EPOLLERR = 0 := by
  rw [Nat.and_or_distrib_left, Nat.and_or_distrib_left, or_eq_zero_iff, or_eq_zero_iff]
  tauto

theorem or_and_self (a b : Nat) : (a ||| b) &&& b = b := by
  apply Nat.eq_of_testBit_eq
  intro i
  rw [Nat.testBit_and, Nat.testBit_or]
  cases a.testBit i <;> cases b.testBit i <;> rfl

/-! ## The call log -/

theorem new_calls_of_append (env env1 : Env) (l : List Call)
    (h : env1.calls = env.calls ++ l) : new_calls env env1 = l := by
  simp [new_calls, h]

@[simp] theorem log_calls (env : Env) (c : Call) : (env.log c).calls = env.calls ++ [c] := rfl

theorem pool_add_calls (epollfd sockfd : Int) (env : Env) :
    (pool_add epollfd sockfd env).calls =
      env.calls ++ [Call.pool_add epollfd sockfd (env.pool.add (epollfd, sockfd)).1] := rfl

theorem handle_event_client_calls (listenfd epollfd : Int) (ev : epoll_event) (env : Env)
    (h : ev.fd ≠ listenfd) :
    (handle_event listenfd epollfd ev env).calls = env.calls ++
      (if ev.events &&& (EPOLLRDHUP ||| EPOLLHUP ||| EPOLLERR) ≠ 0 then [Call.close ev.fd]
       else if ev.events &&& EPOLLIN ≠ 0 then
         [Call.pool_add epollfd ev.fd (env.pool.add (epollfd, ev.fd)).1]
       else []) := by
  unfold handle_event
  simp only [h, if_false]
  split
  · rfl
  · split
    · rfl
    · simp

/-- C1: for a ready event whose fd is not the listener, the loop body submits a
task if and only if `EPOLLIN` is set and none of `EPOLLRDHUP`, `EPOLLHUP`,
`EPOLLERR` is; in that case the only call made is the single
`pool->add(new http_process(epollfd, fd))` for that event's fd: no read, no
close, no `epoll_ctl` on it. -/
theorem C1_client_event_dispatch (listenfd epollfd : Int) (ev : epoll_event) (env : Env)
    (h : ev.fd ≠ listenfd) :
    (submitted (new_calls env (handle_event listenfd epollfd ev env)) ≠ [] ↔
      (ev.events &&& EPOLLIN ≠ 0 ∧ ev.events &&& EPOLLRDHUP = 0 ∧
        ev.events &&& EPOLLHUP = 0 ∧ ev.events &&& EPOLLERR = 0)) ∧
    ((ev.events &&& EPOLLIN ≠ 0 ∧ ev.events &&& EPOLLRDHUP = 0 ∧
        ev.events &&& EPOLLHUP = 0 ∧ ev.events &&& EPOLLERR = 0) →
      new_calls env (handle_event listenfd epollfd ev env) =
          [Call.pool_add epollfd ev.fd (env.pool.add (epollfd, ev.fd)).1] ∧
        submitted (new_calls env (handle_event listenfd epollfd ev env)) =
          [(epollfd, ev.fd)]) := by
  have hc := handle_event_client_calls listenfd epollfd ev env h
  have hn := new_calls_of_append _ _ _ hc
  rw [hn]
  by_cases hf : ev.events &&& (EPOLLRDHUP ||| EPOLLHUP ||| EPOLLERR) = 0
  · have hf3 := (and_flags_eq_zero ev.events).1 hf
    by_cases hi : ev.events &&& EPOLLIN = 0
    · simp [hf, hi, submitted]
    · simp [hf, hi, submitted, hf3.1, hf3.2.1, hf3.2.2]
  · have hf3 : ¬ (ev.events &&& EPOLLRDHUP = 0 ∧ ev.events &&& EPOLLHUP = 0 ∧
        ev.events &&& EPOLLERR = 0) := fun h3 => hf ((and_flags_eq_zero ev.events).2 h3)
    simp only [ne_eq, hf, not_false_eq_true, if_true, submitted]
    constructor
    · constructor
      · intro h0; exact absurd trivial h0
      · rintro ⟨_, h3⟩; exact absurd h3 hf3
    · rintro ⟨_, h3⟩; exact absurd h3 hf3

/-- Witness for C1: a read-ready event on client fd 7 (listener 3, epoll fd 4). -/
theorem C1_client_event_dispatch_witness :
    (submitted (new_calls (Env.sample [] 8)
        (handle_event 3 4 ⟨EPOLLIN, 7⟩ (Env.sample [] 8))) ≠ [] ↔
      (EPOLLIN &&& EPOLLIN ≠ 0 ∧ EPOLLIN &&& EPOLLRDHUP = 0 ∧
        EPOLLIN &&& EPOLLHUP = 0 ∧ EPOLLIN &&& EPOLLERR = 0)) ∧
    ((EPOLLIN &&& EPOLLIN ≠ 0 ∧ EPOLLIN &&& EPOLLRDHUP = 0 ∧
        EPOLLIN &&& EPOLLHUP = 0 ∧ EPOLLIN &&& EPOLLERR = 0) →
      new_calls (Env.sample [] 8) (handle_event 3 4 ⟨EPOLLIN, 7⟩ (Env.sample [] 8)) =
          [Call.pool_add 4 7 ((Env.sample [] 8).pool.add (4, 7)).1] ∧
        submitted (new_calls (Env.sample [] 8)
          (handle_event 3 4 ⟨EPOLLIN, 7⟩ (Env.sample [] 8))) = [(4, 7)]) :=
  C1_client_event_dispatch 3 4 ⟨EPOLLIN, 7⟩ (Env.sample [] 8) (by decide)

theorem handle_event_error (listenfd epollfd : Int) (ev : epoll_event) (env : Env)
    (h : ev.fd ≠ listenfd)
    (hf : ev.events &&& EPOLLRDHUP ≠ 0 ∨ ev.events &&& EPOLLHUP ≠ 0 ∨
      ev.events &&& EPOLLERR ≠ 0) :
    handle_event listenfd epollfd ev env = env.log (Call.close ev.fd) := by
  have hne : ¬ (ev.events &&& (EPOLLRDHUP ||| EPOLLHUP ||| EPOLLERR) = 0) := by
    intro h0
    have h3 := (and_flags_eq_zero ev.events).1 h0
    rcases hf with hf | hf | hf
    · exact hf h3.1
    · exact hf h3.2.1
    · exact hf h3.2.2
  simp [handle_event, h, hne]

/-! ## Listener events -/

theorem add_sockfd_calls (epollfd sockfd : Int) (b : Bool) (env : Env) :
    (add_sockfd epollfd sockfd b env).calls = env.calls ++
      [Call.epoll_ctl epollfd EPOLL_CTL_ADD sockfd (add_sockfd_events b) sockfd
          (env.ctl EPOLL_CTL_ADD sockfd),
        Call.fcntl_getfl sockfd (env.getfl sockfd),
        Call.fcntl_setfl sockfd (Int.lor (env.getfl sockfd) O_NONBLOCK)] := by
  simp [add_sockfd, setnonblocking, Env.log]

theorem add_sockfd_pending (epollfd sockfd : Int) (b : Bool) (env : Env) :
    (add_sockfd epollfd sockfd b env).pending = env.pending := rfl

theorem handle_event_listener_none (listenfd epollfd : Int) (ev : epoll_event) (env : Env)
    (h : ev.fd = listenfd) (hp : env.pending = []) :
    handle_event listenfd epollfd ev env =
      ({ env with errno := EAGAIN }.log (Call.accept listenfd (-1))).log
        (Call.cout_error EAGAIN) := by
  simp [handle_event, h, accept, hp, Env.log]

theorem handle_event_listener_fail (listenfd epollfd : Int) (ev : epoll_event) (env : Env)
    (r : Int × Int) (rest : List (Int × Int))
    (h : ev.fd = listenfd) (hp : env.pending = r :: rest) (hr : r.1 < 0) :
    handle_event listenfd epollfd ev env =
      ({ env with pending := rest, errno := r.2 }.log (Call.accept listenfd r.1)).log
        (Call.cout_error r.2) := by
  simp [handle_event, h, accept, hp, Env.log, hr]

theorem handle_event_listener_conn (listenfd epollfd : Int) (ev : epoll_event) (env : Env)
    (r : Int × Int) (rest : List (Int × Int))
    (h : ev.fd = listenfd) (hp : env.pending = r :: rest) (hr : 0 ≤ r.1) :
    handle_event listenfd epollfd ev env =
      add_sockfd epollfd r.1 true
        ({ env with pending := rest }.log (Call.accept listenfd r.1)) := by
  have hr1 : ¬ r.1 < 0 := not_lt.mpr hr
  simp [handle_event, h, accept, hp, Env.log, hr1]

/-- C3, refuted as stated: with two connections (fds 5 and 6) pending on
listener 3, the batch holding the one listener event leaves connection 6
pending: not every pending connection is accepted before the next wait. -/
theorem C3_no_drain_counterexample :
    ¬ ((for_events 3 4 (evlist_of [⟨EPOLLIN, 3⟩]) 0 1
          (Env.sample [(5, 0), (6, 0)] 8)).pending = []) := by
  decide

/-- C3, amended: for a ready event on the listener fd the loop body calls
`accept` exactly once and takes exactly the first pending result off the
backlog, leaving the others pending; when that result is a connection it is
registered with `add_sockfd(epollfd, connfd, true)`, otherwise the error is
printed. -/
theorem C3_listener_event_single_accept (listenfd epollfd : Int) (ev : epoll_event) (env : Env)
    (h : ev.fd = listenfd) :
    (new_calls env (handle_event listenfd epollfd ev env)).countP Call.is_accept = 1 ∧
      (handle_event listenfd epollfd ev env).pending = env.pending.tail ∧
      (∀ r rest, env.pending = r :: rest → 0 ≤ r.1 →
        handle_event listenfd epollfd ev env =
          add_sockfd epollfd r.1 true
            ({ env with pending := rest }.log (Call.accept listenfd r.1))) ∧
      (∀ r rest, env.pending = r :: rest → r.1 < 0 →
        new_calls env (handle_event listenfd epollfd ev env) =
          [Call.accept listenfd r.1, Call.cout_error r.2]) ∧
      (env.pending = [] →
        new_calls env (handle_event listenfd epollfd ev env) =
          [Call.accept listenfd (-1), Call.cout_error EAGAIN]) := by
  have hfail : ∀ r rest, env.pending = r :: rest → r.1 < 0 →
      new_calls env (handle_event listenfd epollfd ev env) =
        [Call.accept listenfd r.1, Call.cout_error r.2] := by
    intro r rest hp hr
    rw [handle_event_listener_fail listenfd epollfd ev env r rest h hp hr]
    apply new_calls_of_append
    simp [Env.log]
  have hnone : env.pending = [] →
      new_calls env (handle_event listenfd epollfd ev env) =
        [Call.accept listenfd (-1), Call.cout_error EAGAIN] := by
    intro hp
    rw [handle_event_listener_none listenfd epollfd ev env h hp]
    apply new_calls_of_append
    simp [Env.log]
  refine ⟨?_, ?_, ?_, hfail, hnone⟩
  · cases hp : env.pending with
    | nil => rw [hnone hp]; rfl
    | cons r rest =>
      by_cases hr : r.1 < 0
      · rw [hfail r rest hp hr]; rfl
      · rw [handle_event_listener_conn listenfd epollfd ev env r rest h hp (not_lt.mp hr)]
        rw [new_calls_of_append env _ _ (by rw [add_sockfd_calls]; simp [Env.log]; rfl)]
        rfl
  · cases hp : env.pending with
    | nil => rw [handle_event_listener_none listenfd epollfd ev env h hp]; exact hp
    | cons r rest =>
      by_cases hr : r.1 < 0
      · rw [handle_event_listener_fail listenfd epollfd ev env r rest h hp hr]; rfl
      · rw [handle_event_listener_conn listenfd epollfd ev env r rest h hp (not_lt.mp hr)]; rfl
  · intro r rest hp hr
    exact handle_event_listener_conn listenfd epollfd ev env r rest h hp hr

/-- Witness for C3: the listener event with connections 5 and 6 pending. -/
theorem C3_listener_event_single_accept_witness :
    (new_calls (Env.sample [(5, 0), (6, 0)] 8)
        (handle_event 3 4 ⟨EPOLLIN, 3⟩ (Env.sample [(5, 0), (6, 0)] 8))).countP
          Call.is_accept = 1 ∧
      (handle_event 3 4 ⟨EPOLLIN, 3⟩ (Env.sample [(5, 0), (6, 0)] 8)).pending = [(6, 0)] :=
  ⟨(C3_listener_event_single_accept 3 4 ⟨EPOLLIN, 3⟩ (Env.sample [(5, 0), (6, 0)] 8) rfl).1,
    (C3_listener_event_single_accept 3 4 ⟨EPOLLIN, 3⟩ (Env.sample [(5, 0), (6, 0)] 8) rfl).2.1⟩

/-! ## Registration masks -/

theorem lor_nonblock (n : Nat) :
    Int.land (Int.lor (n : Int) O_NONBLOCK) O_NONBLOCK = O_NONBLOCK := by
  show ((((n ||| 2048) &&& 2048 : Nat)) : Int) = ((2048 : Nat) : Int)
  rw [or_and_self]

theorem main_started (s : Startup) (ws : List WaitResult) (env : Env)
    (hargc : s.argc = 2) (hsig : s.sigaction_ret ≠ -1) (hpool : s.pool_ctor = PoolCtor.built)
    (hsock : 0 ≤ s.socket_ret) (hopt : 0 ≤ s.setsockopt_ret) (hbind : 0 ≤ s.bind_ret)
    (hlisten : 0 ≤ s.listen_ret) (hep : s.epoll_create_ret ≠ -1) :
    main s ws env =
      (if (event_loop s.socket_ret s.epoll_create_ret ws (started s env)).2 then
        (Outcome.exit 0,
          (((event_loop s.socket_ret s.epoll_create_ret ws (started s env)).1.log
            (Call.close s.socket_ret)).log (Call.close s.epoll_create_ret)).log
            Call.pool_delete)
       else
        (Outcome.blocked, (event_loop s.socket_ret s.epoll_create_ret ws (started s env)).1)) := by
  unfold main started
  simp [hargc, addsig, hsig, hpool, hsock, hopt, hbind, hlisten, hep]

/-- C4: `add_sockfd` registers with `EPOLLIN | EPOLLET | EPOLLRDHUP` plus
`EPOLLONESHOT` exactly when `is_one_shot` is true, with the descriptor itself
as event data, and then sets `O_NONBLOCK`; an accepted connection goes through
`add_sockfd(epollfd, connfd, true)`, the listener through
`add_sockfd(epollfd, listenfd, false)`. -/
theorem C4_registration_masks :
    (∀ b : Bool, add_sockfd_events b &&& EPOLLONESHOT ≠ 0 ↔ b = true) ∧
    add_sockfd_events true = EPOLLIN ||| EPOLLET ||| EPOLLRDHUP ||| EPOLLONESHOT ∧
    add_sockfd_events false = EPOLLIN ||| EPOLLET ||| EPOLLRDHUP ∧
    (∀ (epollfd sockfd : Int) (b : Bool) (env : Env),
      new_calls env (add_sockfd epollfd sockfd b env) =
        [Call.epoll_ctl epollfd EPOLL_CTL_ADD sockfd (add_sockfd_events b) sockfd
            (env.ctl EPOLL_CTL_ADD sockfd),
          Call.fcntl_getfl sockfd (env.getfl sockfd),
          Call.fcntl_setfl sockfd (Int.lor (env.getfl sockfd) O_NONBLOCK)]) ∧
    (∀ n : Nat, Int.land (Int.lor (n : Int) O_NONBLOCK) O_NONBLOCK = O_NONBLOCK) ∧
    (∀ (listenfd epollfd : Int) (ev : epoll_event) (env : Env) (r : Int × Int)
        (rest : List (Int × Int)),
      ev.fd = listenfd → env.pending = r :: rest → 0 ≤ r.1 →
      new_calls env (handle_event listenfd epollfd ev env) =
        [Call.accept listenfd r.1,
          Call.epoll_ctl epollfd EPOLL_CTL_ADD r.1
            (EPOLLIN ||| EPOLLET ||| EPOLLRDHUP ||| EPOLLONESHOT) r.1
            (env.ctl EPOLL_CTL_ADD r.1),
          Call.fcntl_getfl r.1 (env.getfl r.1),
          Call.fcntl_setfl r.1 (Int.lor (env.getfl r.1) O_NONBLOCK)]) ∧
    (∀ (s : Startup) (env : Env),
      s.argc = 2 → s.sigaction_ret ≠ -1 → s.pool_ctor = PoolCtor.built →
      0 ≤ s.socket_ret → 0 ≤ s.setsockopt_ret → 0 ≤ s.bind_ret → 0 ≤ s.listen_ret →
      s.epoll_create_ret ≠ -1 →
      new_calls env (main s [] env).2 =
        [Call.sigaction SIGPIPE s.sigaction_ret, Call.pool_new true,
          Call.socket s.socket_ret, Call.setsockopt s.socket_ret s.setsockopt_ret,
          Call.bind s.socket_ret (bound_port s.port) s.bind_ret,
          Call.listen s.socket_ret 5 s.listen_ret,
          Call.epoll_create 5 s.epoll_create_ret,
          Call.epoll_ctl s.epoll_create_ret EPOLL_CTL_ADD s.socket_ret
            (EPOLLIN ||| EPOLLET ||| EPOLLRDHUP) s.socket_ret
            (env.ctl EPOLL_CTL_ADD s.socket_ret),
          Call.fcntl_getfl s.socket_ret (env.getfl s.socket_ret),
          Call.fcntl_setfl s.socket_ret (Int.lor (env.getfl s.socket_ret) O_NONBLOCK)]) := by
  refine ⟨?_, rfl, rfl, ?_, lor_nonblock, ?_, ?_⟩
  · intro b; cases b <;> decide
  · intro epollfd sockfd b env
    exact new_calls_of_append _ _ _ (add_sockfd_calls epollfd sockfd b env)
  · intro listenfd epollfd ev env r rest h hp hr
    rw [handle_event_listener_conn listenfd epollfd ev env r rest h hp hr]
    apply new_calls_of_append
    rw [add_sockfd_calls]
    simp [Env.log]
    rfl
  · intro s env hargc hsig hpool hsock hopt hbind hlisten hep
    rw [main_started s [] env hargc hsig hpool hsock hopt hbind hlisten hep]
    apply new_calls_of_append
    simp only [event_loop, Bool.false_eq_true, if_false, started]
    rw [add_sockfd_calls]
    simp [Env.log]
    rfl

/-- Witness for C4: listener 3 with connection 5 pending, and the sample start-up. -/
theorem C4_registration_masks_witness :
    new_calls (Env.sample [(5, 0)] 8)
        (handle_event 3 4 ⟨EPOLLIN, 3⟩ (Env.sample [(5, 0)] 8)) =
      [Call.accept 3 5,
        Call.epoll_ctl 4 EPOLL_CTL_ADD 5 (EPOLLIN ||| EPOLLET ||| EPOLLRDHUP ||| EPOLLONESHOT) 5 0,
        Call.fcntl_getfl 5 2, Call.fcntl_setfl 5 (Int.lor 2 O_NONBLOCK)] ∧
    new_calls (Env.sample [] 8) (main Startup.sample [] (Env.sample [] 8)).2 =
      [Call.sigaction SIGPIPE 0, Call.pool_new true, Call.socket 3, Call.setsockopt 3 0,
        Call.bind 3 8080 0, Call.listen 3 5 0, Call.epoll_create 5 4,
        Call.epoll_ctl 4 EPOLL_CTL_ADD 3 (EPOLLIN ||| EPOLLET ||| EPOLLRDHUP) 3 0,
        Call.fcntl_getfl 3 2, Call.fcntl_setfl 3 (Int.lor 2 O_NONBLOCK)] :=
  ⟨C4_registration_masks.2.2.2.2.2.1 3 4 ⟨EPOLLIN, 3⟩ (Env.sample [(5, 0)] 8) (5, 0) [] rfl rfl
      (by decide),
    C4_registration_masks.2.2.2.2.2.2 Startup.sample (Env.sample [] 8) rfl (by decide) rfl
      (by decide) (by decide) (by decide) (by decide) (by decide)⟩

/-! ## Rejected submissions -/

/-- C6, refuted as stated: with a full queue (capacity 1, one task queued) the
read-ready event on client fd 5 leads to the one rejected `pool->add` and
nothing else before the reactor is back in `epoll_wait`: no retry, no re-arm,
no close. -/
theorem C6_queue_full_counterexample :
    new_calls Env.sample_full
        (event_loop 3 4 [⟨1, 0, evlist_of [⟨EPOLLIN, 5⟩]⟩] Env.sample_full).1 =
      [Call.epoll_wait 4 MAX_EVENTS 1, Call.pool_add 4 5 false] ∧
    follows_up 5 (new_calls Env.sample_full
        (event_loop 3 4 [⟨1, 0, evlist_of [⟨EPOLLIN, 5⟩]⟩] Env.sample_full).1) = false := by
  decide

/-- C6, amended: when the pool rejects the task submitted for a read-ready
client event, the loop body does nothing but that one `pool->add` call: the
result is discarded, the environment is otherwise unchanged, and no retry,
re-arm or close of the connection follows. -/
theorem C6_queue_full_ignored (listenfd epollfd : Int) (ev : epoll_event) (env : Env)
    (h : ev.fd ≠ listenfd)
    (hin : ev.events &&& EPOLLIN ≠ 0)
    (hf : ev.events &&& (EPOLLRDHUP ||| EPOLLHUP ||| EPOLLERR) = 0)
    (hfull : env.pool.capacity ≤ env.pool.queue.length) :
    (env.pool.add (epollfd, ev.fd)).1 = false ∧
      handle_event listenfd epollfd ev env = env.log (Call.pool_add epollfd ev.fd false) ∧
      follows_up ev.fd (new_calls env (handle_event listenfd epollfd ev env)) = false := by
  have hadd : env.pool.add (epollfd, ev.fd) = (false, env.pool) := by
    simp [threadpool.add, hfull]
  have hev : handle_event listenfd epollfd ev env =
      env.log (Call.pool_add epollfd ev.fd false) := by
    have hin1 : ¬ (ev.events &&& EPOLLIN = 0) := hin
    simp [handle_event, h, hf, hin1, pool_add, hadd, Env.log]
  refine ⟨by rw [hadd], hev, ?_⟩
  rw [hev, new_calls_of_append env _ [Call.pool_add epollfd ev.fd false] rfl]
  simp [follows_up, submitted, Call.is_ctl, Call.is_close]

/-- Witness for C6: client fd 5, read-ready, the queue full. -/
theorem C6_queue_full_ignored_witness :
    (Env.sample_full.pool.add (4, 5)).1 = false ∧
      handle_event 3 4 ⟨EPOLLIN, 5⟩ Env.sample_full =
        Env.sample_full.log (Call.pool_add 4 5 false) ∧
      follows_up 5 (new_calls Env.sample_full
        (handle_event 3 4 ⟨EPOLLIN, 5⟩ Env.sample_full)) = false :=
  C6_queue_full_ignored 3 4 ⟨EPOLLIN, 5⟩ Env.sample_full (by decide) (by decide) (by decide)
    (by decide)

/-! ## The loop -/

theorem for_events_eq (listenfd epollfd : Int) (evlist : Nat → epoll_event) (k : Nat) :
    ∀ (i : Nat) (env : Env), for_events listenfd epollfd evlist i k env =
      handle_all listenfd epollfd ((List.range' i k).map evlist) env := by
  induction k with
  | zero => intro i env; rfl
  | succ k ih =>
    intro i env
    rw [for_events, ih, List.range'_succ]
    rfl

theorem for_events_first (listenfd epollfd : Int) (evlist : Nat → epoll_event) (n : Nat)
    (env : Env) :
    for_events listenfd epollfd evlist 0 n env =
      handle_all listenfd epollfd (first_events evlist n) env := by
  rw [for_events_eq, first_events, List.range_eq_range']

theorem event_loop_breaks (listenfd epollfd : Int) (ws : List WaitResult) :
    ∀ env : Env, (event_loop listenfd epollfd ws env).2 = true ↔
      ∃ w ∈ ws, w.ready < 0 ∧ w.errno ≠ EINTR := by
  induction ws with
  | nil => intro env; simp [event_loop]
  | cons w ws ih =>
    intro env
    unfold event_loop
    by_cases hr : w.ready < 0
    · by_cases he : w.errno = EINTR
      · simp [hr, he, Env.log, ih]
      · simp [hr, he, Env.log]
    · simp [hr, Env.log, ih]

theorem event_loop_eintr (listenfd epollfd : Int) (w : WaitResult) (ws : List WaitResult)
    (env : Env) (hr : w.ready < 0) (he : w.errno = EINTR) :
    event_loop listenfd epollfd (w :: ws) env =
      event_loop listenfd epollfd ws
        ({ env with errno := EINTR }.log (Call.epoll_wait epollfd MAX_EVENTS w.ready)) := by
  have h0 : w.ready.toNat = 0 := Int.toNat_eq_zero.mpr (le_of_lt hr)
  rw [event_loop]
  simp [hr, he, Env.log, h0, for_events]

theorem event_loop_ready (listenfd epollfd : Int) (w : WaitResult) (ws : List WaitResult)
    (env : Env) (hr : 0 ≤ w.ready) :
    event_loop listenfd epollfd (w :: ws) env =
      event_loop listenfd epollfd ws
        (handle_all listenfd epollfd (first_events w.evlist w.ready.toNat)
          (env.log (Call.epoll_wait epollfd MAX_EVENTS w.ready))) := by
  have hr1 : ¬ w.ready < 0 := not_lt.mpr hr
  rw [event_loop]
  simp [hr1, for_events_first, Env.log]

theorem event_loop_fatal (listenfd epollfd : Int) (w : WaitResult) (ws : List WaitResult)
    (env : Env) (hr : w.ready < 0) (he : w.errno ≠ EINTR) :
    event_loop listenfd epollfd (w :: ws) env = (fatal_wait epollfd w env, true) := by
  rw [event_loop]
  simp [hr, he, Env.log, fatal_wait]

theorem event_loop_turn (listenfd epollfd : Int) (w : WaitResult) (ws : List WaitResult)
    (env : Env) (h : ¬ (w.ready < 0 ∧ w.errno ≠ EINTR)) :
    event_loop listenfd epollfd (w :: ws) env =
      event_loop listenfd epollfd ws (wait_turn listenfd epollfd w env) := by
  rw [event_loop]
  by_cases hr : w.ready < 0
  · have he : w.errno = EINTR := by
      by_contra hne
      exact h ⟨hr, hne⟩
    simp [hr, he, Env.log, wait_turn]
  · simp [hr, Env.log, wait_turn]

theorem event_loop_split (listenfd epollfd : Int) (ws : List WaitResult) :
    ∀ env : Env, (event_loop listenfd epollfd ws env).2 = true →
      ∃ (pre : List WaitResult) (w : WaitResult) (post : List WaitResult),
        ws = pre ++ w :: post ∧
        (∀ x ∈ pre, ¬ (x.ready < 0 ∧ x.errno ≠ EINTR)) ∧
        (w.ready < 0 ∧ w.errno ≠ EINTR) ∧
        (event_loop listenfd epollfd pre env).2 = false ∧
        event_loop listenfd epollfd ws env =
          (fatal_wait epollfd w (event_loop listenfd epollfd pre env).1, true) := by
  induction ws with
  | nil => intro env h; simp [event_loop] at h
  | cons w ws ih =>
    intro env h
    by_cases hw : w.ready < 0 ∧ w.errno ≠ EINTR
    · refine ⟨[], w, ws, rfl, ?_, hw, rfl, ?_⟩
      · intro x hx; simp at hx
      · rw [event_loop_fatal listenfd epollfd w ws env hw.1 hw.2]
        rfl
    · rw [event_loop_turn listenfd epollfd w ws env hw] at h
      obtain ⟨pre, w1, post, hws, hpre, hw1, hflag, heq⟩ :=
        ih (wait_turn listenfd epollfd w env) h
      refine ⟨w :: pre, w1, post, by rw [hws]; rfl, ?_, hw1, ?_, ?_⟩
      · intro x hx
        rcases List.mem_cons.1 hx with hx | hx
        · rw [hx]; exact hw
        · exact hpre x hx
      · rw [event_loop_turn listenfd epollfd w pre env hw]
        exact hflag
      · rw [event_loop_turn listenfd epollfd w ws env hw,
          event_loop_turn listenfd epollfd w pre env hw]
        exact heq

/-- C7: the loop of `main` is left exactly when some `epoll_wait` returns a
negative count with `errno` other than `EINTR`; a wait failing with `EINTR`
only logs the wait (no event is processed: no accept, close or submit) and
the loop waits again; a wait returning `n ≥ 0` runs the loop body on exactly
the first `n` entries of `evlist`, each once, in order.  The fatal wait ends
the loop on the spot: the wait and the line `"epoll_wait failure"` are logged
and no later wait result is used; with no wait result left the program is
blocked, not ended; and a loop that has ended did so at its first fatal wait. -/
theorem C7_event_loop (listenfd epollfd : Int) :
    (∀ (ws : List WaitResult) (env : Env),
      (event_loop listenfd epollfd ws env).2 = true ↔
        ∃ w ∈ ws, w.ready < 0 ∧ w.errno ≠ EINTR) ∧
    (∀ (w : WaitResult) (ws : List WaitResult) (env : Env),
      w.ready < 0 → w.errno = EINTR →
      event_loop listenfd epollfd (w :: ws) env =
        event_loop listenfd epollfd ws
          ({ env with errno := EINTR }.log (Call.epoll_wait epollfd MAX_EVENTS w.ready))) ∧
    (∀ (w : WaitResult) (ws : List WaitResult) (env : Env),
      0 ≤ w.ready →
      event_loop listenfd epollfd (w :: ws) env =
        event_loop listenfd epollfd ws
          (handle_all listenfd epollfd (first_events w.evlist w.ready.toNat)
            (env.log (Call.epoll_wait epollfd MAX_EVENTS w.ready)))) ∧
    (∀ (w : WaitResult) (ws : List WaitResult) (env : Env),
      w.ready < 0 → w.errno ≠ EINTR →
      event_loop listenfd epollfd (w :: ws) env =
        (({ env with errno := w.errno }.log
            (Call.epoll_wait epollfd MAX_EVENTS w.ready)).log
          (Call.cout "epoll_wait failure"), true)) ∧
    (∀ env : Env, event_loop listenfd epollfd [] env = (env, false)) ∧
    (∀ (ws : List WaitResult) (env : Env),
      (event_loop listenfd epollfd ws env).2 = true →
      ∃ (pre : List WaitResult) (w : WaitResult) (post : List WaitResult),
        ws = pre ++ w :: post ∧
        (∀ x ∈ pre, ¬ (x.ready < 0 ∧ x.errno ≠ EINTR)) ∧
        (w.ready < 0 ∧ w.errno ≠ EINTR) ∧
        (event_loop listenfd epollfd pre env).2 = false ∧
        event_loop listenfd epollfd ws env =
          (fatal_wait epollfd w (event_loop listenfd epollfd pre env).1, true)) :=
  ⟨event_loop_breaks listenfd epollfd, event_loop_eintr listenfd epollfd,
    event_loop_ready listenfd epollfd, event_loop_fatal listenfd epollfd,
    fun _ => rfl, event_loop_split listenfd epollfd⟩

/-- Witness for C7: an interrupted wait, then a wait with two events (client 7
hangs up, client 8 is read-ready), then a wait failing with `EBADF` (9); and
a wait failing with `EBADF` followed by a wait that would report client 8
read-ready, which is never made. -/
theorem C7_event_loop_witness :
    ((event_loop 3 4
        [⟨-1, EINTR, evlist_of []⟩, ⟨2, 0, evlist_of [⟨EPOLLHUP, 7⟩, ⟨EPOLLIN, 8⟩]⟩,
          ⟨-1, 9, evlist_of []⟩] (Env.sample [] 8)).2 = true ↔
      ∃ w ∈ [(⟨-1, EINTR, evlist_of []⟩ : WaitResult),
          ⟨2, 0, evlist_of [⟨EPOLLHUP, 7⟩, ⟨EPOLLIN, 8⟩]⟩, ⟨-1, 9, evlist_of []⟩],
        w.ready < 0 ∧ w.errno ≠ EINTR) ∧
    (event_loop 3 4 [⟨-1, EINTR, evlist_of []⟩] (Env.sample [] 8) =
      event_loop 3 4 []
        ({ Env.sample [] 8 with errno := EINTR }.log (Call.epoll_wait 4 MAX_EVENTS (-1)))) ∧
    (event_loop 3 4 [⟨2, 0, evlist_of [⟨EPOLLHUP, 7⟩, ⟨EPOLLIN, 8⟩]⟩] (Env.sample [] 8) =
      event_loop 3 4 []
        (handle_all 3 4 (first_events (evlist_of [⟨EPOLLHUP, 7⟩, ⟨EPOLLIN, 8⟩]) 2)
          ((Env.sample [] 8).log (Call.epoll_wait 4 MAX_EVENTS 2)))) ∧
    (event_loop 3 4 [⟨-1, 9, evlist_of []⟩, ⟨1, 0, evlist_of [⟨EPOLLIN, 8⟩]⟩]
        (Env.sample [] 8) =
      (({ Env.sample [] 8 with errno := 9 }.log (Call.epoll_wait 4 MAX_EVENTS (-1))).log
        (Call.cout "epoll_wait failure"), true)) ∧
    new_calls (Env.sample [] 8)
        (event_loop 3 4 [⟨-1, 9, evlist_of []⟩, ⟨1, 0, evlist_of [⟨EPOLLIN, 8⟩]⟩]
          (Env.sample [] 8)).1 =
      [Call.epoll_wait 4 MAX_EVENTS (-1), Call.cout "epoll_wait failure"] :=
  ⟨(C7_event_loop 3 4).1 _ _,
    (C7_event_loop 3 4).2.1 ⟨-1, EINTR, evlist_of []⟩ [] (Env.sample [] 8) (by decide) rfl,
    (C7_event_loop 3 4).2.2.1 ⟨2, 0, evlist_of [⟨EPOLLHUP, 7⟩, ⟨EPOLLIN, 8⟩]⟩ []
      (Env.sample [] 8) (by decide),
    (C7_event_loop 3 4).2.2.2.1 ⟨-1, 9, evlist_of []⟩ [⟨1, 0, evlist_of [⟨EPOLLIN, 8⟩]⟩]
      (Env.sample [] 8) (by decide) (by decide),
    by decide⟩

/-! ## Failures while accepting -/

/-- C8, refuted as stated: connection 5 is accepted on listener 3 and its
`EPOLL_CTL_ADD` fails; the loop body prints nothing and does not close fd 5,
which stays open without a registration. -/
theorem C8_registration_failure_counterexample :
    new_calls (Env.sample_ctl_fails [(5, 0)] 8)
        (handle_event 3 4 ⟨EPOLLIN, 3⟩ (Env.sample_ctl_fails [(5, 0)] 8)) =
      [Call.accept 3 5,
        Call.epoll_ctl 4 EPOLL_CTL_ADD 5 (EPOLLIN ||| EPOLLET ||| EPOLLRDHUP ||| EPOLLONESHOT) 5
          (-1),
        Call.fcntl_getfl 5 2, Call.fcntl_setfl 5 (Int.lor 2 O_NONBLOCK)] ∧
    closes 5 (new_calls (Env.sample_ctl_fails [(5, 0)] 8)
        (handle_event 3 4 ⟨EPOLLIN, 3⟩ (Env.sample_ctl_fails [(5, 0)] 8))) = false ∧
    (new_calls (Env.sample_ctl_fails [(5, 0)] 8)
        (handle_event 3 4 ⟨EPOLLIN, 3⟩ (Env.sample_ctl_fails [(5, 0)] 8))).any
      Call.is_cout = false := by
  decide

/-- C8, amended: a failing `accept` is logged (`"error: " + strerror(errno)`)
and is the only other call of that loop iteration.  A failing
`EPOLL_CTL_ADD` for an accepted fd goes unnoticed: the calls are those of a
successful registration, nothing is printed and the fd is not closed.  In
both cases the rest of the batch is processed (the batch is the in-order run
of the loop body over all its events) and whether the loop is left depends
on the `epoll_wait` results alone. -/
theorem C8_accept_and_registration_failures (listenfd epollfd : Int) :
    (∀ (ev : epoll_event) (env : Env) (r : Int × Int) (rest : List (Int × Int)),
      ev.fd = listenfd → env.pending = r :: rest → r.1 < 0 →
      new_calls env (handle_event listenfd epollfd ev env) =
        [Call.accept listenfd r.1, Call.cout_error r.2]) ∧
    (∀ (ev : epoll_event) (env : Env) (r : Int × Int) (rest : List (Int × Int)),
      ev.fd = listenfd → env.pending = r :: rest → 0 ≤ r.1 →
      env.ctl EPOLL_CTL_ADD r.1 < 0 →
      new_calls env (handle_event listenfd epollfd ev env) =
          [Call.accept listenfd r.1,
            Call.epoll_ctl epollfd EPOLL_CTL_ADD r.1 (add_sockfd_events true) r.1
              (env.ctl EPOLL_CTL_ADD r.1),
            Call.fcntl_getfl r.1 (env.getfl r.1),
            Call.fcntl_setfl r.1 (Int.lor (env.getfl r.1) O_NONBLOCK)] ∧
        closes r.1 (new_calls env (handle_event listenfd epollfd ev env)) = false ∧
        (new_calls env (handle_event listenfd epollfd ev env)).any Call.is_cout = false) ∧
    (∀ (evlist : Nat → epoll_event) (n : Nat) (env : Env),
      for_events listenfd epollfd evlist 0 n env =
        handle_all listenfd epollfd (first_events evlist n) env) ∧
    (∀ (ws : List WaitResult) (env : Env),
      (event_loop listenfd epollfd ws env).2 = true ↔
        ∃ w ∈ ws, w.ready < 0 ∧ w.errno ≠ EINTR) := by
  refine ⟨?_, ?_, for_events_first listenfd epollfd, event_loop_breaks listenfd epollfd⟩
  · intro ev env r rest h hp hr
    rw [handle_event_listener_fail listenfd epollfd ev env r rest h hp hr]
    apply new_calls_of_append
    simp [Env.log]
  · intro ev env r rest h hp hr _
    have hc : new_calls env (handle_event listenfd epollfd ev env) =
        [Call.accept listenfd r.1,
          Call.epoll_ctl epollfd EPOLL_CTL_ADD r.1 (add_sockfd_events true) r.1
            (env.ctl EPOLL_CTL_ADD r.1),
          Call.fcntl_getfl r.1 (env.getfl r.1),
          Call.fcntl_setfl r.1 (Int.lor (env.getfl r.1) O_NONBLOCK)] := by
      rw [handle_event_listener_conn listenfd epollfd ev env r rest h hp hr]
      apply new_calls_of_append
      rw [add_sockfd_calls]
      simp [Env.log]
    rw [hc]
    exact ⟨rfl, rfl, rfl⟩

/-- Witness for C8: a failing `accept` (return `-1`, `errno` 24), and an
accepted connection 5 whose registration fails. -/
theorem C8_accept_and_registration_failures_witness :
    new_calls (Env.sample [(-1, 24)] 8)
        (handle_event 3 4 ⟨EPOLLIN, 3⟩ (Env.sample [(-1, 24)] 8)) =
      [Call.accept 3 (-1), Call.cout_error 24] ∧
    closes 5 (new_calls (Env.sample_ctl_fails [(5, 0)] 8)
        (handle_event 3 4 ⟨EPOLLIN, 3⟩ (Env.sample_ctl_fails [(5, 0)] 8))) = false :=
  ⟨(C8_accept_and_registration_failures 3 4).1 ⟨EPOLLIN, 3⟩ (Env.sample [(-1, 24)] 8)
      (-1, 24) [] rfl rfl (by decide),
    ((C8_accept_and_registration_failures 3 4).2.1 ⟨EPOLLIN, 3⟩
      (Env.sample_ctl_fails [(5, 0)] 8) (5, 0) [] rfl rfl (by decide) (by decide)).2.1⟩

/-! ## Exit of `main` -/

theorem main_usage (s : Startup) (ws : List WaitResult) (env : Env) (hargc : s.argc ≠ 2) :
    main s ws env =
      (Outcome.exit 0, env.log (Call.cout ("usage: " ++ s.argv0 ++ " <port>"))) := by
  unfold main
  simp [hargc]

theorem main_pool_failure (s : Startup) (ws : List WaitResult) (env : Env) (what : String)
    (hargc : s.argc = 2) (hsig : s.sigaction_ret ≠ -1)
    (hpool : s.pool_ctor = PoolCtor.runtime_error what) :
    main s ws env =
      ((match s.delete_unassigned with
        | DeleteUnassigned.killed signo => Outcome.killed signo
        | DeleteUnassigned.returns => Outcome.exit (-1)),
        ((((env.log (Call.sigaction SIGPIPE s.sigaction_ret)).log (Call.pool_new false)).log
          (Call.cout what)).log Call.pool_delete_unassigned)) := by
  unfold main
  cases hd : s.delete_unassigned <;> simp [hargc, addsig, hsig, hpool, hd]

theorem main_socket_failure (s : Startup) (ws : List WaitResult) (env : Env)
    (hargc : s.argc = 2) (hsig : s.sigaction_ret ≠ -1) (hpool : s.pool_ctor = PoolCtor.built)
    (h : s.socket_ret < 0 ∨ s.setsockopt_ret < 0 ∨ s.bind_ret < 0 ∨ s.listen_ret < 0 ∨
      s.epoll_create_ret = -1) :
    (main s ws env).1 = Outcome.abort ∧
      (new_calls env (main s ws env).2).any Call.is_wait = false := by
  by_cases h1 : s.socket_ret < 0
  · have e : main s ws env = (Outcome.abort,
        ((env.log (Call.sigaction SIGPIPE s.sigaction_ret)).log (Call.pool_new true)).log
          (Call.socket s.socket_ret)) := by
      unfold main
      simp [hargc, addsig, hsig, hpool, h1]
    rw [e]
    exact ⟨rfl, by rw [new_calls_of_append env _ _ (by simp [Env.log]; rfl)]; rfl⟩
  by_cases h2 : s.setsockopt_ret < 0
  · have e : main s ws env = (Outcome.abort,
        (((env.log (Call.sigaction SIGPIPE s.sigaction_ret)).log (Call.pool_new true)).log
          (Call.socket s.socket_ret)).log (Call.setsockopt s.socket_ret s.setsockopt_ret)) := by
      unfold main
      simp [hargc, addsig, hsig, hpool, not_lt.mp h1, h2]
    rw [e]
    exact ⟨rfl, by rw [new_calls_of_append env _ _ (by simp [Env.log]; rfl)]; rfl⟩
  by_cases h3 : s.bind_ret < 0
  · have e : main s ws env = (Outcome.abort,
        ((((env.log (Call.sigaction SIGPIPE s.sigaction_ret)).log (Call.pool_new true)).log
          (Call.socket s.socket_ret)).log (Call.setsockopt s.socket_ret s.setsockopt_ret)).log
          (Call.bind s.socket_ret (bound_port s.port) s.bind_ret)) := by
      unfold main
      simp [hargc, addsig, hsig, hpool, not_lt.mp h1, not_lt.mp h2, h3]
    rw [e]
    exact ⟨rfl, by rw [new_calls_of_append env _ _ (by simp [Env.log]; rfl)]; rfl⟩
  by_cases h4 : s.listen_ret < 0
  · have e : main s ws env = (Outcome.abort,
        (((((env.log (Call.sigaction SIGPIPE s.sigaction_ret)).log (Call.pool_new true)).log
          (Call.socket s.socket_ret)).log (Call.setsockopt s.socket_ret s.setsockopt_ret)).log
          (Call.bind s.socket_ret (bound_port s.port) s.bind_ret)).log
          (Call.listen s.socket_ret 5 s.listen_ret)) := by
      unfold main
      simp [hargc, addsig, hsig, hpool, not_lt.mp h1, not_lt.mp h2, not_lt.mp h3, h4]
    rw [e]
    exact ⟨rfl, by rw [new_calls_of_append env _ _ (by simp [Env.log]; rfl)]; rfl⟩
  have h5 : s.epoll_create_ret = -1 := by
    rcases h with h | h | h | h | h
    · exact absurd h h1
    · exact absurd h h2
    · exact absurd h h3
    · exact absurd h h4
    · exact h
  have e : main s ws env = (Outcome.abort,
      ((((((env.log (Call.sigaction SIGPIPE s.sigaction_ret)).log (Call.pool_new true)).log
        (Call.socket s.socket_ret)).log (Call.setsockopt s.socket_ret s.setsockopt_ret)).log
        (Call.bind s.socket_ret (bound_port s.port) s.bind_ret)).log
        (Call.listen s.socket_ret 5 s.listen_ret)).log
        (Call.epoll_create 5 s.epoll_create_ret)) := by
    unfold main
    simp [hargc, addsig, hsig, hpool, not_lt.mp h1, not_lt.mp h2, not_lt.mp h3, not_lt.mp h4, h5]
  rw [e]
  exact ⟨rfl, by rw [new_calls_of_append env _ _ (by simp [Env.log]; rfl)]; rfl⟩

theorem main_sigaction_failure (s : Startup) (ws : List WaitResult) (env : Env)
    (hargc : s.argc = 2) (hsig : s.sigaction_ret = -1) :
    (main s ws env).1 = Outcome.abort := by
  unfold main
  simp [hargc, addsig, hsig]

theorem main_exit_zero (s : Startup) (ws : List WaitResult) (env : Env)
    (hargc : s.argc = 2) (h : (main s ws env).1 = Outcome.exit 0) :
    (s.sigaction_ret ≠ -1 ∧ s.pool_ctor = PoolCtor.built ∧ 0 ≤ s.socket_ret ∧
      0 ≤ s.setsockopt_ret ∧ 0 ≤ s.bind_ret ∧ 0 ≤ s.listen_ret ∧ s.epoll_create_ret ≠ -1) ∧
    (event_loop s.socket_ret s.epoll_create_ret ws (started s env)).2 = true := by
  by_cases hsig : s.sigaction_ret = -1
  · rw [main_sigaction_failure s ws env hargc hsig] at h
    exact absurd h (by decide)
  cases hpool : s.pool_ctor with
  | runtime_error what =>
    rw [main_pool_failure s ws env what hargc hsig hpool] at h
    cases hd : s.delete_unassigned with
    | returns =>
      rw [hd] at h
      have h0 : Outcome.exit (-1) = Outcome.exit 0 := h
      exact absurd h0 (by decide)
    | killed signo =>
      rw [hd] at h
      have h0 : Outcome.killed signo = Outcome.exit 0 := h
      exact absurd h0 (by simp)
  | built =>
    by_cases hfail : s.socket_ret < 0 ∨ s.setsockopt_ret < 0 ∨ s.bind_ret < 0 ∨
        s.listen_ret < 0 ∨ s.epoll_create_ret = -1
    · rw [(main_socket_failure s ws env hargc hsig hpool hfail).1] at h
      exact absurd h (by decide)
    · simp only [not_or, not_lt] at hfail
      obtain ⟨h1, h2, h3, h4, h5⟩ := hfail
      refine ⟨⟨hsig, rfl, h1, h2, h3, h4, h5⟩, ?_⟩
      rw [main_started s ws env hargc hsig hpool h1 h2 h3 h4 h5] at h
      by_cases hl : (event_loop s.socket_ret s.epoll_create_ret ws (started s env)).2 = true
      · exact hl
      · rw [if_neg hl] at h
        have h0 : Outcome.blocked = Outcome.exit 0 := h
        exact absurd h0 (by decide)

theorem main_loop_ended (s : Startup) (ws : List WaitResult) (env : Env)
    (hargc : s.argc = 2) (h : (main s ws env).1 = Outcome.exit 0) :
    ∃ (pre : List WaitResult) (w : WaitResult) (post : List WaitResult),
      ws = pre ++ w :: post ∧
      (∀ x ∈ pre, ¬ (x.ready < 0 ∧ x.errno ≠ EINTR)) ∧
      (w.ready < 0 ∧ w.errno ≠ EINTR) ∧
      (main s ws env).2 =
        (((fatal_wait s.epoll_create_ret w
            (event_loop s.socket_ret s.epoll_create_ret pre (started s env)).1).log
          (Call.close s.socket_ret)).log (Call.close s.epoll_create_ret)).log
          Call.pool_delete := by
  obtain ⟨⟨hsig, hpool, h1, h2, h3, h4, h5⟩, hl⟩ := main_exit_zero s ws env hargc h
  obtain ⟨pre, w, post, hws, hpre, hw, _, heq⟩ :=
    event_loop_split s.socket_ret s.epoll_create_ret ws (started s env) hl
  refine ⟨pre, w, post, hws, hpre, hw, ?_⟩
  rw [main_started s ws env hargc hsig hpool h1 h2 h3 h4 h5, if_pos hl, heq]

/-- C9: exit of `main` by start-up outcome.  With `argc ≠ 2` the only call is the
usage line and `main` returns 0 (no pool, socket or epoll instance is
created).  When the pool constructor throws, the run ends with a non-zero
status and without any socket or epoll call: the `catch` block prints the
text and applies `delete pool` to the never-assigned pointer, which either
kills the process or comes back to `return -1`.  When `socket`, `bind` or
`listen` fails the process aborts on the failed `assert` with no `epoll_wait`
ever made.  With `argc = 2` a return of 0 happens only after every start-up
call succeeded and the loop was left: some `epoll_wait` failed with an error
other than `EINTR`, the waits before it were handled, none after it was made,
and the only calls after the failing wait are the failure line, the two
`close` calls and `delete pool`. -/
theorem C9_exit_status (s : Startup) (ws : List WaitResult) (env : Env) :
    (s.argc ≠ 2 →
      (main s ws env).1 = Outcome.exit 0 ∧
        new_calls env (main s ws env).2 = [Call.cout ("usage: " ++ s.argv0 ++ " <port>")]) ∧
    (∀ what, s.argc = 2 → s.sigaction_ret ≠ -1 →
      s.pool_ctor = PoolCtor.runtime_error what →
      (main s ws env).1.nonzero = true ∧
        (s.delete_unassigned = DeleteUnassigned.returns →
          (main s ws env).1 = Outcome.exit (-1)) ∧
        (∀ signo, s.delete_unassigned = DeleteUnassigned.killed signo →
          (main s ws env).1 = Outcome.killed signo) ∧
        new_calls env (main s ws env).2 =
          [Call.sigaction SIGPIPE s.sigaction_ret, Call.pool_new false, Call.cout what,
            Call.pool_delete_unassigned]) ∧
    (s.argc = 2 → s.sigaction_ret ≠ -1 → s.pool_ctor = PoolCtor.built →
      (s.socket_ret < 0 ∨ s.bind_ret < 0 ∨ s.listen_ret < 0) →
      (main s ws env).1 = Outcome.abort ∧ (main s ws env).1.nonzero = true ∧
        (new_calls env (main s ws env).2).any Call.is_wait = false) ∧
    (s.argc = 2 → (main s ws env).1 = Outcome.exit 0 →
      (event_loop s.socket_ret s.epoll_create_ret ws (started s env)).2 = true ∧
        (∃ w ∈ ws, w.ready < 0 ∧ w.errno ≠ EINTR) ∧
        ∃ (pre : List WaitResult) (w : WaitResult) (post : List WaitResult),
          ws = pre ++ w :: post ∧
          (∀ x ∈ pre, ¬ (x.ready < 0 ∧ x.errno ≠ EINTR)) ∧
          (w.ready < 0 ∧ w.errno ≠ EINTR) ∧
          (main s ws env).2 =
            (((fatal_wait s.epoll_create_ret w
                (event_loop s.socket_ret s.epoll_create_ret pre (started s env)).1).log
              (Call.close s.socket_ret)).log (Call.close s.epoll_create_ret)).log
              Call.pool_delete) := by
  refine ⟨?_, ?_, ?_, ?_⟩
  · intro hargc
    rw [main_usage s ws env hargc]
    exact ⟨rfl, new_calls_of_append env _ _ rfl⟩
  · intro what hargc hsig hpool
    rw [main_pool_failure s ws env what hargc hsig hpool]
    refine ⟨?_, ?_, ?_, ?_⟩
    · cases s.delete_unassigned <;> rfl
    · intro hd; rw [hd]
    · intro signo hd; rw [hd]
    · apply new_calls_of_append
      simp [Env.log]
  · intro hargc hsig hpool h
    have hm := main_socket_failure s ws env hargc hsig hpool (by
      rcases h with h | h | h
      · exact Or.inl h
      · exact Or.inr (Or.inr (Or.inl h))
      · exact Or.inr (Or.inr (Or.inr (Or.inl h))))
    refine ⟨hm.1, ?_, hm.2⟩
    rw [hm.1]
    rfl
  · intro hargc h
    have hl := (main_exit_zero s ws env hargc h).2
    exact ⟨hl, (event_loop_breaks _ _ ws _).1 hl, main_loop_ended s ws env hargc h⟩

/-- Witness for C9: one argument too few; a throwing pool constructor whose
`delete pool` kills the process, and one whose `delete pool` comes back; a
failing `bind`; and a full start-up whose first `epoll_wait` fails with
`EBADF` (9) although a second one would report client 8 read-ready. -/
theorem C9_exit_status_witness :
    ((main (Startup.sample_argc 1) [] (Env.sample [] 8)).1 = Outcome.exit 0 ∧
      new_calls (Env.sample [] 8) (main (Startup.sample_argc 1) [] (Env.sample [] 8)).2 =
        [Call.cout ("usage: " ++ "server" ++ " <port>")]) ∧
    (main Startup.sample_pool_throws [] (Env.sample [] 8)).1 = Outcome.killed 6 ∧
    ((main Startup.sample_pool_throws_returns [] (Env.sample [] 8)).1.nonzero = true ∧
      (main Startup.sample_pool_throws_returns [] (Env.sample [] 8)).1 = Outcome.exit (-1)) ∧
    ((main Startup.sample_bind_fails [] (Env.sample [] 8)).1 = Outcome.abort ∧
      (main Startup.sample_bind_fails [] (Env.sample [] 8)).1.nonzero = true ∧
      (new_calls (Env.sample [] 8)
        (main Startup.sample_bind_fails [] (Env.sample [] 8)).2).any Call.is_wait = false) ∧
    ((event_loop 3 4 [⟨-1, 9, evlist_of []⟩, ⟨1, 0, evlist_of [⟨EPOLLIN, 8⟩]⟩]
        (started Startup.sample (Env.sample [] 8))).2 = true) ∧
    new_calls (started Startup.sample (Env.sample [] 8))
        (main Startup.sample [⟨-1, 9, evlist_of []⟩, ⟨1, 0, evlist_of [⟨EPOLLIN, 8⟩]⟩]
          (Env.sample [] 8)).2 =
      [Call.epoll_wait 4 MAX_EVENTS (-1), Call.cout "epoll_wait failure", Call.close 3,
        Call.close 4, Call.pool_delete] :=
  ⟨(C9_exit_status (Startup.sample_argc 1) [] (Env.sample [] 8)).1 (by decide),
    ((C9_exit_status Startup.sample_pool_throws [] (Env.sample [] 8)).2.1
      "thread create failed" rfl (by decide) rfl).2.2.1 6 rfl,
    ⟨((C9_exit_status Startup.sample_pool_throws_returns [] (Env.sample [] 8)).2.1
        "thread create failed" rfl (by decide) rfl).1,
      ((C9_exit_status Startup.sample_pool_throws_returns [] (Env.sample [] 8)).2.1
        "thread create failed" rfl (by decide) rfl).2.1 rfl⟩,
    (C9_exit_status Startup.sample_bind_fails [] (Env.sample [] 8)).2.2.1 rfl (by decide) rfl
      (Or.inr (Or.inl (by decide))),
    ((C9_exit_status Startup.sample
      [⟨-1, 9, evlist_of []⟩, ⟨1, 0, evlist_of [⟨EPOLLIN, 8⟩]⟩] (Env.sample [] 8)).2.2.2 rfl
      (by decide)).1,
    by decide⟩

/-! ## The parser model -/

theorem scan_line_append_complete (e : List Char) :
    ∀ (l line : List Char), scan_line l = LineScanResult.Complete line →
      scan_line (l ++ e) = LineScanResult.Complete line := by
  intro l
  induction l with
  | nil => intro line h; simp [scan_line] at h
  | cons c rest ih =>
    intro line h
    rw [List.cons_append]
    unfold scan_line at h ⊢
    by_cases hc : c = '\r'
    · simp only [hc, if_true] at h ⊢
      cases rest with
      | nil => simp at h
      | cons d rest2 =>
        simp only [List.cons_append] at h ⊢
        exact h
    · simp only [hc, if_false] at h ⊢
      cases hs : scan_line rest with
      | Complete l2 =>
        rw [hs] at h
        rw [ih l2 hs]
        exact h
      | Incomplete => rw [hs] at h; simp at h
      | Malformed => rw [hs] at h; simp at h

theorem scan_line_append_malformed (e : List Char) :
    ∀ (l : List Char), scan_line l = LineScanResult.Malformed →
      scan_line (l ++ e) = LineScanResult.Malformed := by
  intro l
  induction l with
  | nil => intro h; simp [scan_line] at h
  | cons c rest ih =>
    intro h
    rw [List.cons_append]
    unfold scan_line at h ⊢
    by_cases hc : c = '\r'
    · simp only [hc, if_true] at h ⊢
      cases rest with
      | nil => simp at h
      | cons d rest2 =>
        simp only [List.cons_append] at h ⊢
        exact h
    · simp only [hc, if_false] at h ⊢
      cases hs : scan_line rest with
      | Complete l2 => rw [hs] at h; simp at h
      | Incomplete => rw [hs] at h; simp at h
      | Malformed =>
        rw [ih hs]

theorem scan_line_complete_length :
    ∀ (l line : List Char), scan_line l = LineScanResult.Complete line →
      line.length + 2 ≤ l.length := by
  intro l
  induction l with
  | nil => intro line h; simp [scan_line] at h
  | cons c rest ih =>
    intro line h
    unfold scan_line at h
    by_cases hc : c = '\r'
    · simp only [hc, if_true] at h
      cases rest with
      | nil => simp at h
      | cons d rest2 =>
        simp only at h
        by_cases hd : d = '\n'
        · simp [hd] at h
          subst h
          simp
        · simp [hd] at h
    · simp only [hc, if_false] at h
      cases hs : scan_line rest with
      | Complete l2 =>
        rw [hs] at h
        simp at h
        subst h
        have := ih l2 hs
        simp
        omega
      | Incomplete => rw [hs] at h; simp at h
      | Malformed => rw [hs] at h; simp at h

theorem scan_line_malformed_length :
    ∀ (l : List Char), scan_line l = LineScanResult.Malformed → 0 < l.length := by
  intro l h
  cases l with
  | nil => simp [scan_line] at h
  | cons c rest => simp

theorem drop_append_of_scan (buf e : List Char) (o : Nat) (h : 0 < (buf.drop o).length) :
    (buf ++ e).drop o = buf.drop o ++ e := by
  have : o ≤ buf.length := by
    rw [List.length_drop] at h
    omega
  exact List.drop_append_of_le_length this

theorem scan_drop_append_complete (buf e : List Char) (o : Nat) (line : List Char)
    (h : scan_line (buf.drop o) = LineScanResult.Complete line) :
    scan_line ((buf ++ e).drop o) = LineScanResult.Complete line := by
  have hl := scan_line_complete_length _ _ h
  rw [drop_append_of_scan buf e o (by omega)]
  exact scan_line_append_complete e _ _ h

theorem scan_drop_append_malformed (buf e : List Char) (o : Nat)
    (h : scan_line (buf.drop o) = LineScanResult.Malformed) :
    scan_line ((buf ++ e).drop o) = LineScanResult.Malformed := by
  have hl := scan_line_malformed_length _ h
  rw [drop_append_of_scan buf e o hl]
  exact scan_line_append_malformed e _ h

theorem step_next_append (buf e : List Char) (st st1 : ParserState)
    (h : step buf st = Step.next st1) : step (buf ++ e) st = Step.next st1 := by
  unfold step at h ⊢
  cases hp : st.phase with
  | Done => rw [hp] at h; simp at h
  | Error => rw [hp] at h; simp at h
  | RequestLine =>
    rw [hp] at h
    simp only at h ⊢
    cases hs : scan_line (buf.drop st.offset) with
    | Incomplete => rw [hs] at h; simp at h
    | Malformed => rw [hs] at h; simp at h
    | Complete line =>
      rw [hs] at h
      rw [scan_drop_append_complete buf e st.offset line hs]
      exact h
  | Headers =>
    rw [hp] at h
    simp only at h ⊢
    cases hs : scan_line (buf.drop st.offset) with
    | Incomplete => rw [hs] at h; simp at h
    | Malformed => rw [hs] at h; simp at h
    | Complete line =>
      rw [hs] at h
      rw [scan_drop_append_complete buf e st.offset line hs]
      exact h

theorem step_stop_append (buf e : List Char) (st st1 : ParserState) (code : HTTP_CODE)
    (h : step buf st = Step.stop st1 code) (hc : code ≠ HTTP_CODE.MORE_DATA) :
    step (buf ++ e) st = Step.stop st1 code := by
  unfold step at h ⊢
  cases hp : st.phase with
  | Done => rw [hp] at h; exact h
  | Error => rw [hp] at h; exact h
  | RequestLine =>
    rw [hp] at h
    simp only at h ⊢
    cases hs : scan_line (buf.drop st.offset) with
    | Incomplete =>
      rw [hs] at h
      simp only [Step.stop.injEq] at h
      exact absurd h.2.symm hc
    | Malformed =>
      rw [hs] at h
      rw [scan_drop_append_malformed buf e st.offset hs]
      exact h
    | Complete line =>
      rw [hs] at h
      rw [scan_drop_append_complete buf e st.offset line hs]
      exact h
  | Headers =>
    rw [hp] at h
    simp only at h ⊢
    cases hs : scan_line (buf.drop st.offset) with
    | Incomplete =>
      rw [hs] at h
      simp only [Step.stop.injEq] at h
      exact absurd h.2.symm hc
    | Malformed =>
      rw [hs] at h
      rw [scan_drop_append_malformed buf e st.offset hs]
      exact h
    | Complete line =>
      rw [hs] at h
      rw [scan_drop_append_complete buf e st.offset line hs]
      exact h

/-- What a stopping step leaves: the unchanged state with `MORE_DATA`, a
`Done` state with `GET_REQUEST`, or an `Error` state with `REQUEST_ERROR`. -/
theorem step_stop_cases (buf : List Char) (st st1 : ParserState) (code : HTTP_CODE)
    (h : step buf st = Step.stop st1 code) :
    (code = HTTP_CODE.MORE_DATA ∧ st1 = st ∧
        (st.phase = Phase.RequestLine ∨ st.phase = Phase.Headers)) ∨
      (code = HTTP_CODE.GET_REQUEST ∧ st1.phase = Phase.Done ∧ st1.parsed = st.parsed ∧
        st1.offset ≤ max st.offset buf.length) ∨
      (code = HTTP_CODE.REQUEST_ERROR ∧ st1.phase = Phase.Error) := by
  unfold step at h
  cases hp : st.phase with
  | Done =>
    rw [hp] at h
    simp only [Step.stop.injEq] at h
    obtain ⟨rfl, rfl⟩ := h
    exact Or.inr (Or.inl ⟨rfl, hp, rfl, le_max_left _ _⟩)
  | Error =>
    rw [hp] at h
    simp only [Step.stop.injEq] at h
    obtain ⟨rfl, rfl⟩ := h
    exact Or.inr (Or.inr ⟨rfl, hp⟩)
  | RequestLine =>
    rw [hp] at h
    simp only at h
    cases hs : scan_line (buf.drop st.offset) with
    | Incomplete =>
      rw [hs] at h
      simp only [Step.stop.injEq] at h
      obtain ⟨rfl, rfl⟩ := h
      exact Or.inl ⟨rfl, rfl, Or.inl rfl⟩
    | Malformed =>
      rw [hs] at h
      simp only [Step.stop.injEq] at h
      obtain ⟨rfl, rfl⟩ := h
      exact Or.inr (Or.inr ⟨rfl, rfl⟩)
    | Complete line =>
      rw [hs] at h
      simp only at h
      cases hr : parse_requestline line st.parsed with
      | none =>
        rw [hr] at h
        simp only [Step.stop.injEq] at h
        obtain ⟨rfl, rfl⟩ := h
        exact Or.inr (Or.inr ⟨rfl, rfl⟩)
      | some r => rw [hr] at h; simp at h
  | Headers =>
    rw [hp] at h
    simp only at h
    cases hs : scan_line (buf.drop st.offset) with
    | Incomplete =>
      rw [hs] at h
      simp only [Step.stop.injEq] at h
      obtain ⟨rfl, rfl⟩ := h
      exact Or.inl ⟨rfl, rfl, Or.inr rfl⟩
    | Malformed =>
      rw [hs] at h
      simp only [Step.stop.injEq] at h
      obtain ⟨rfl, rfl⟩ := h
      exact Or.inr (Or.inr ⟨rfl, rfl⟩)
    | Complete line =>
      rw [hs] at h
      simp only at h
      have hl := scan_line_complete_length _ _ hs
      rw [List.length_drop] at hl
      by_cases he : line = []
      · simp only [he, if_true, Step.stop.injEq] at h
        obtain ⟨rfl, rfl⟩ := h
        refine Or.inr (Or.inl ⟨rfl, rfl, rfl, ?_⟩)
        simp only
        have : st.offset + 2 ≤ buf.length := by omega
        exact le_trans this (le_max_right _ _)
      · simp only [he, if_false] at h
        cases hr : parse_header line st.parsed with
        | none =>
          rw [hr] at h
          simp only [Step.stop.injEq] at h
          obtain ⟨rfl, rfl⟩ := h
          exact Or.inr (Or.inr ⟨rfl, rfl⟩)
        | some r => rw [hr] at h; simp at h

theorem step_of_done (buf : List Char) (st : ParserState) (h : st.phase = Phase.Done) :
    step buf st = Step.stop st HTTP_CODE.GET_REQUEST := by
  unfold step; rw [h]

theorem step_of_error (buf : List Char) (st : ParserState) (h : st.phase = Phase.Error) :
    step buf st = Step.stop st HTTP_CODE.REQUEST_ERROR := by
  unfold step; rw [h]

theorem step_next_offset (buf : List Char) (st st1 : ParserState)
    (h : step buf st = Step.next st1) :
    st.offset + 2 ≤ st1.offset ∧ st1.offset ≤ buf.length := by
  unfold step at h
  cases hp : st.phase with
  | Done => rw [hp] at h; simp at h
  | Error => rw [hp] at h; simp at h
  | RequestLine =>
    rw [hp] at h
    simp only at h
    cases hs : scan_line (buf.drop st.offset) with
    | Incomplete => rw [hs] at h; simp at h
    | Malformed => rw [hs] at h; simp at h
    | Complete line =>
      rw [hs] at h
      simp only at h
      have hl := scan_line_complete_length _ _ hs
      rw [List.length_drop] at hl
      cases hr : parse_requestline line st.parsed with
      | none => rw [hr] at h; simp at h
      | some r =>
        rw [hr] at h
        simp only [Step.next.injEq] at h
        subst h
        simp only
        omega
  | Headers =>
    rw [hp] at h
    simp only at h
    cases hs : scan_line (buf.drop st.offset) with
    | Incomplete => rw [hs] at h; simp at h
    | Malformed => rw [hs] at h; simp at h
    | Complete line =>
      rw [hs] at h
      simp only at h
      have hl := scan_line_complete_length _ _ hs
      rw [List.length_drop] at hl
      by_cases he : line = []
      · simp [he] at h
      · simp only [he, if_false] at h
        cases hr : parse_header line st.parsed with
        | none => rw [hr] at h; simp at h
        | some r =>
          rw [hr] at h
          simp only [Step.next.injEq] at h
          subst h
          simp only
          omega

theorem parse_loop_fuel (buf : List Char) :
    ∀ (f g : Nat) (st : ParserState), buf.length - st.offset < f → buf.length - st.offset < g →
      parse_loop f buf st = parse_loop g buf st := by
  intro f
  induction f with
  | zero => intro g st hf; omega
  | succ f ih =>
    intro g st hf hg
    cases g with
    | zero => omega
    | succ g =>
      unfold parse_loop
      cases hs : step buf st with
      | stop st1 code => rfl
      | next st1 =>
        have ho := step_next_offset buf st st1 hs
        exact ih g st1 (by omega) (by omega)

theorem parse_loop_stop (buf : List Char) (f : Nat) (st st1 : ParserState) (code : HTTP_CODE)
    (h : step buf st = Step.stop st1 code) : parse_loop (f + 1) buf st = (st1, code) := by
  rw [parse_loop, h]

theorem parse_loop_next (buf : List Char) (f : Nat) (st st1 : ParserState)
    (h : step buf st = Step.next st1) : parse_loop (f + 1) buf st = parse_loop f buf st1 := by
  rw [parse_loop, h]

theorem parse_loop_of_done (buf : List Char) (f : Nat) (st : ParserState)
    (h : st.phase = Phase.Done) : parse_loop (f + 1) buf st = (st, HTTP_CODE.GET_REQUEST) :=
  parse_loop_stop buf f st st _ (step_of_done buf st h)

theorem parse_loop_of_error (buf : List Char) (f : Nat) (st : ParserState)
    (h : st.phase = Phase.Error) : parse_loop (f + 1) buf st = (st, HTTP_CODE.REQUEST_ERROR) :=
  parse_loop_stop buf f st st _ (step_of_error buf st h)

theorem parse_loop_append (buf e : List Char) :
    ∀ (f : Nat) (st : ParserState) (g : Nat), buf.length - st.offset < f →
      (buf ++ e).length - st.offset < g →
      parse_loop g (buf ++ e) (parse_loop f buf st).1 = parse_loop g (buf ++ e) st := by
  have hlen : (buf ++ e).length = buf.length + e.length := List.length_append buf e
  intro f
  induction f with
  | zero => intro st g hf; omega
  | succ f ih =>
    intro st g hf hg
    cases g with
    | zero => omega
    | succ g =>
      cases hs : step buf st with
      | stop st1 code =>
        rw [parse_loop_stop buf f st st1 code hs]
        rcases step_stop_cases buf st st1 code hs with ⟨_, h1, _⟩ | ⟨hc, hp, _⟩ | ⟨hc, hp⟩
        · rw [h1]
        · rw [parse_loop_of_done _ _ _ hp,
            parse_loop_stop _ g st st1 code (step_stop_append buf e st st1 code hs
              (by rw [hc]; decide)), hc]
        · rw [parse_loop_of_error _ _ _ hp,
            parse_loop_stop _ g st st1 code (step_stop_append buf e st st1 code hs
              (by rw [hc]; decide)), hc]
      | next st1 =>
        have ho := step_next_offset buf st st1 hs
        rw [parse_loop_next buf f st st1 hs,
          parse_loop_next (buf ++ e) g st st1 (step_next_append buf e st st1 hs),
          ih st1 (g + 1) (by omega) (by omega)]
        exact parse_loop_fuel (buf ++ e) _ _ st1 (by omega) (by omega)

theorem resume_append (buf e : List Char) (st : ParserState) :
    resume (buf ++ e) (resume buf st).1 = resume (buf ++ e) st := by
  unfold resume
  exact parse_loop_append buf e _ st _ (by omega) (by omega)

theorem resume_nil (st : ParserState)
    (h : st.phase = Phase.RequestLine ∨ st.phase = Phase.Headers) :
    resume [] st = (st, HTTP_CODE.MORE_DATA) := by
  unfold resume parse_loop step
  rcases h with h | h <;> simp [h, scan_line]

theorem feed_eq (st0 : ParserState) :
    ∀ (chunks : List (List Char)) (buf : List Char),
      feed buf (resume buf st0).1 chunks =
        (List.range chunks.length).map
          (fun k => resume (buf ++ (chunks.take (k + 1)).flatten) st0) := by
  intro chunks
  induction chunks with
  | nil => intro buf; rfl
  | cons c cs ih =>
    intro buf
    rw [feed, resume_append, ih (buf ++ c)]
    rw [List.length_cons, List.range_succ_eq_map, List.map_cons, List.map_map]
    simp [Function.comp_def, List.append_assoc]

theorem scan_line_of_line (rest : List Char) :
    ∀ line : List Char, '\r' ∉ line →
      scan_line (line ++ ('\r' :: '\n' :: rest)) = LineScanResult.Complete line := by
  intro line
  induction line with
  | nil => intro _; simp [scan_line]
  | cons c l ih =>
    intro h
    have hc : c ≠ '\r' := fun hc => h (by rw [hc]; exact List.mem_cons_self _ _)
    have hl : '\r' ∉ l := fun hl => h (List.mem_cons_of_mem _ hl)
    rw [List.cons_append]
    unfold scan_line
    simp only [hc, if_false]
    rw [ih hl]

theorem split_on_no_sep (sep : Char) :
    ∀ l : List Char, sep ∉ l → split_on sep l = [l] := by
  intro l
  induction l with
  | nil => intro _; rfl
  | cons c l ih =>
    intro h
    have hc : c ≠ sep := fun hc => h (by rw [hc]; exact List.mem_cons_self _ _)
    have hl : sep ∉ l := fun hl => h (List.mem_cons_of_mem _ hl)
    rw [split_on]
    simp only [hc, if_false]
    rw [ih hl]

theorem split_on_append (sep : Char) (b : List Char) :
    ∀ a : List Char, sep ∉ a → split_on sep (a ++ sep :: b) = a :: split_on sep b := by
  intro a
  induction a with
  | nil => intro _; simp [split_on]
  | cons c l ih =>
    intro h
    have hc : c ≠ sep := fun hc => h (by rw [hc]; exact List.mem_cons_self _ _)
    have hl : sep ∉ l := fun hl => h (List.mem_cons_of_mem _ hl)
    rw [List.cons_append, split_on]
    simp only [hc, if_false]
    rw [ih hl]

theorem methods_plain : ∀ m ∈ METHODS, ' ' ∉ m ∧ '\r' ∉ m := by decide

theorem parse_requestline_ok (m u v : List Char) (r : http_request)
    (hm : m ∈ METHODS) (hu : ' ' ∉ u) (hv : ' ' ∉ v) :
    parse_requestline (m ++ (' ' :: (u ++ (' ' :: v)))) r =
      some { r with method := m, uri := u, version := v } := by
  unfold parse_requestline
  rw [split_on_append ' ' _ m (methods_plain m hm).1, split_on_append ' ' _ u hu,
    split_on_no_sep ' ' v hv]
  simp [hm]

theorem split_colon_some : ∀ line : List Char, ':' ∈ line → ∃ p, split_colon line = some p := by
  intro line
  induction line with
  | nil => intro h; simp at h
  | cons c l ih =>
    intro h
    rw [split_colon]
    by_cases hc : c = ':'
    · simp [hc]
    · simp only [hc, if_false]
      have hl : ':' ∈ l := by
        rcases List.mem_cons.1 h with h1 | h1
        · exact absurd h1.symm hc
        · exact h1
      obtain ⟨p, hp⟩ := ih hl
      rw [hp]
      exact ⟨_, rfl⟩

theorem parse_header_ok (line : List Char) (r : http_request) (h : ':' ∈ line) :
    ∃ r1, parse_header line r = some r1 ∧ r1.method = r.method ∧ r1.uri = r.uri ∧
      r1.version = r.version := by
  obtain ⟨p, hp⟩ := split_colon_some line h
  unfold parse_header
  rw [hp]
  simp only
  split
  · exact ⟨_, rfl, rfl, rfl, rfl⟩
  · split
    · exact ⟨_, rfl, rfl, rfl, rfl⟩
    · exact ⟨_, rfl, rfl, rfl, rfl⟩

theorem header_text_length_pos (hs : List (List Char)) : 2 ≤ (header_text hs).length := by
  cases hs with
  | nil => simp [header_text]
  | cons h hs => simp [header_text]; omega

theorem parse_headers_ok (buf : List Char) :
    ∀ (hs : List (List Char)) (f : Nat) (st : ParserState),
      st.phase = Phase.Headers → buf.drop st.offset = header_text hs →
      (∀ h ∈ hs, ':' ∈ h ∧ '\r' ∉ h) → buf.length - st.offset < f →
      ∃ st1, parse_loop f buf st = (st1, HTTP_CODE.GET_REQUEST) ∧ st1.phase = Phase.Done ∧
        st1.offset = buf.length ∧ st1.parsed.method = st.parsed.method ∧
        st1.parsed.uri = st.parsed.uri ∧ st1.parsed.version = st.parsed.version := by
  intro hs
  induction hs with
  | nil =>
    intro f st hp hd _ hf
    have hlen : (buf.drop st.offset).length = 2 := by rw [hd]; rfl
    rw [List.length_drop] at hlen
    cases f with
    | zero => omega
    | succ f =>
      have hstep : step buf st =
          Step.stop { st with phase := Phase.Done, offset := st.offset + 2 }
            HTTP_CODE.GET_REQUEST := by
        unfold step
        rw [hp]
        simp only
        rw [hd]
        simp [header_text, scan_line]
      rw [parse_loop_stop buf f st _ _ hstep]
      refine ⟨_, rfl, rfl, ?_, rfl, rfl, rfl⟩
      simp only
      omega
  | cons h hs ih =>
    intro f st hp hd hall hf
    have hh := hall h (List.mem_cons_self _ _)
    have hne : h ≠ [] := by
      intro he
      rw [he] at hh
      simp at hh
    have hlen : (buf.drop st.offset).length = h.length + 2 + (header_text hs).length := by
      rw [hd]
      simp [header_text]
      omega
    rw [List.length_drop] at hlen
    have h2 := header_text_length_pos hs
    obtain ⟨r1, hr1, hm, hu, hv⟩ := parse_header_ok h st.parsed hh.1
    cases f with
    | zero => omega
    | succ f =>
      have hstep : step buf st =
          Step.next { phase := Phase.Headers, offset := st.offset + h.length + 2, parsed := r1 } := by
        unfold step
        rw [hp]
        simp only
        rw [hd, header_text, scan_line_of_line _ h hh.2]
        simp only [hne, if_false]
        rw [hr1]
      rw [parse_loop_next buf f st _ hstep]
      have hd1 : buf.drop (st.offset + h.length + 2) = header_text hs := by
        have : buf.drop (st.offset + h.length + 2) = (buf.drop st.offset).drop (h.length + 2) := by
          rw [List.drop_drop, Nat.add_assoc]
        rw [this, hd, header_text]
        have e2 : h ++ ('\r' :: '\n' :: header_text hs) = (h ++ ['\r', '\n']) ++ header_text hs := by
          simp
        rw [e2]
        exact List.drop_left' (by simp)
      obtain ⟨st1, hst1, hph, hoff, hm1, hu1, hv1⟩ :=
        ih f { phase := Phase.Headers, offset := st.offset + h.length + 2, parsed := r1 } rfl hd1
          (fun x hx => hall x (List.mem_cons_of_mem _ hx)) (by simp only; omega)
      exact ⟨st1, hst1, hph, hoff, by rw [hm1]; exact hm, by rw [hu1]; exact hu,
        by rw [hv1]; exact hv⟩

theorem resume_well_formed (m u v : List Char) (hs : List (List Char))
    (hm : m ∈ METHODS) (hu : ' ' ∉ u) (hur : '\r' ∉ u) (hv : ' ' ∉ v) (hvr : '\r' ∉ v)
    (hall : ∀ h ∈ hs, ':' ∈ h ∧ '\r' ∉ h) :
    ∃ st1, resume (request_text m u v hs) ParserState.initial = (st1, HTTP_CODE.GET_REQUEST) ∧
      st1.phase = Phase.Done ∧ st1.offset = (request_text m u v hs).length ∧
      st1.parsed.method = m ∧ st1.parsed.uri = u ∧ st1.parsed.version = v := by
  have hline : '\r' ∉ m ++ (' ' :: (u ++ (' ' :: v))) := by
    intro h
    rcases List.mem_append.1 h with h | h
    · exact (methods_plain m hm).2 h
    · rcases List.mem_cons.1 h with h | h
      · exact absurd h (by decide)
      · rcases List.mem_append.1 h with h | h
        · exact hur h
        · rcases List.mem_cons.1 h with h | h
          · exact absurd h (by decide)
          · exact hvr h
  have htext : request_text m u v hs =
      (m ++ (' ' :: (u ++ (' ' :: v)))) ++ ('\r' :: '\n' :: header_text hs) := by
    simp [request_text]
  have hstep : step (request_text m u v hs) ParserState.initial =
      Step.next { phase := Phase.Headers, offset := (m ++ (' ' :: (u ++ (' ' :: v)))).length + 2,
                  parsed := { ParserState.initial.parsed with method := m, uri := u, version := v } } := by
    unfold step
    simp only [ParserState.initial, List.drop_zero]
    rw [htext, scan_line_of_line _ _ hline]
    simp only
    rw [parse_requestline_ok m u v _ hm hu hv]
    simp
  unfold resume
  rw [parse_loop_next _ _ _ _ hstep]
  have hd : (request_text m u v hs).drop ((m ++ (' ' :: (u ++ (' ' :: v)))).length + 2) =
      header_text hs := by
    rw [htext]
    have e2 : (m ++ (' ' :: (u ++ (' ' :: v)))) ++ ('\r' :: '\n' :: header_text hs) =
        ((m ++ (' ' :: (u ++ (' ' :: v)))) ++ ['\r', '\n']) ++ header_text hs := by simp
    rw [e2]
    exact List.drop_left' (by simp only [List.length_append, List.length_cons, List.length_nil])
  obtain ⟨st1, h1, h2, h3, h4, h5, h6⟩ := parse_headers_ok (request_text m u v hs) hs
    (request_text m u v hs).length
    { phase := Phase.Headers, offset := (m ++ (' ' :: (u ++ (' ' :: v)))).length + 2,
      parsed := { ParserState.initial.parsed with method := m, uri := u, version := v } }
    rfl hd hall (by simp only [htext, List.length_append, List.length_cons]; omega)
  exact ⟨st1, h1, h2, h3, h4, h5, h6⟩

theorem parse_loop_cases (buf : List Char) :
    ∀ (f : Nat) (st : ParserState),
      (parse_loop f buf st).2 = HTTP_CODE.MORE_DATA ∨
      ((parse_loop f buf st).2 = HTTP_CODE.GET_REQUEST ∧
        (parse_loop f buf st).1.phase = Phase.Done ∧
        (parse_loop f buf st).1.offset ≤ max st.offset buf.length) ∨
      ((parse_loop f buf st).2 = HTTP_CODE.REQUEST_ERROR ∧
        (parse_loop f buf st).1.phase = Phase.Error) := by
  intro f
  induction f with
  | zero => intro st; exact Or.inl rfl
  | succ f ih =>
    intro st
    cases hs : step buf st with
    | stop st1 code =>
      rw [parse_loop_stop buf f st st1 code hs]
      rcases step_stop_cases buf st st1 code hs with ⟨hc, _, _⟩ | ⟨hc, hp, _, ho⟩ | ⟨hc, hp⟩
      · exact Or.inl hc
      · exact Or.inr (Or.inl ⟨hc, hp, ho⟩)
      · exact Or.inr (Or.inr ⟨hc, hp⟩)
    | next st1 =>
      rw [parse_loop_next buf f st st1 hs]
      have ho := step_next_offset buf st st1 hs
      rcases ih st1 with h | ⟨hc, hp, hoff⟩ | h
      · exact Or.inl h
      · refine Or.inr (Or.inl ⟨hc, hp, le_trans hoff ?_⟩)
        rw [max_eq_right ho.2]
        exact le_max_right _ _
      · exact Or.inr (Or.inr h)

theorem resume_proper_part (p e : List Char) (he : e ≠ []) (stF : ParserState)
    (hfull : resume (p ++ e) ParserState.initial = (stF, HTTP_CODE.GET_REQUEST))
    (hoff : stF.offset = (p ++ e).length) :
    (resume p ParserState.initial).2 = HTTP_CODE.MORE_DATA := by
  have happ := resume_append p e ParserState.initial
  rw [hfull] at happ
  have hlen : p.length < (p ++ e).length := by
    rw [List.length_append]
    have : 0 < e.length := List.length_pos.2 he
    omega
  rcases parse_loop_cases p (p.length + 1) ParserState.initial with h | ⟨_, hp, ho⟩ | ⟨_, hp⟩
  · exact h
  · change (resume p ParserState.initial).1.phase = Phase.Done at hp
    change (resume p ParserState.initial).1.offset ≤ _ at ho
    have h1 : resume (p ++ e) (resume p ParserState.initial).1 =
        ((resume p ParserState.initial).1, HTTP_CODE.GET_REQUEST) :=
      parse_loop_of_done _ _ _ hp
    rw [h1] at happ
    have hst : (resume p ParserState.initial).1 = stF := congrArg Prod.fst happ
    rw [hst, hoff] at ho
    simp only [ParserState.initial] at ho
    rw [max_eq_right (Nat.zero_le _)] at ho
    omega
  · change (resume p ParserState.initial).1.phase = Phase.Error at hp
    have h1 : resume (p ++ e) (resume p ParserState.initial).1 =
        ((resume p ParserState.initial).1, HTTP_CODE.REQUEST_ERROR) :=
      parse_loop_of_error _ _ _ hp
    rw [h1] at happ
    have hcode := congrArg Prod.snd happ
    simp at hcode

theorem feed_initial (chunks : List (List Char)) :
    feed [] ParserState.initial chunks =
      (List.range chunks.length).map
        (fun k => resume (chunks.take (k + 1)).flatten ParserState.initial) := by
  have h := feed_eq ParserState.initial chunks []
  rw [resume_nil ParserState.initial (Or.inl rfl)] at h
  simpa using h

/-- C10: parser resumability.  For a well-formed request and any way of cutting
it into chunks fed to the parser one invocation per chunk, with the state kept
between invocations: every invocation returns exactly what one call on the
bytes received so far returns; the last invocation returns the result of
parsing the whole request in one call, which is `GET_REQUEST`; and every
invocation made before the whole request has arrived returns `MORE_DATA`. -/
theorem C10_parser_resumable (req : List Char) (chunks : List (List Char))
    (hw : well_formed req) (hj : chunks.flatten = req) :
    (∀ k, k < chunks.length →
      (feed [] ParserState.initial chunks)[k]? =
        some (resume (chunks.take (k + 1)).flatten ParserState.initial)) ∧
    (feed [] ParserState.initial chunks).getLast? = some (resume req ParserState.initial) ∧
    (resume req ParserState.initial).2 = HTTP_CODE.GET_REQUEST ∧
    (∀ k, k < chunks.length → (chunks.take (k + 1)).flatten ≠ req →
      ((feed [] ParserState.initial chunks).map Prod.snd)[k]? = some HTTP_CODE.MORE_DATA) := by
  obtain ⟨m, u, v, hs, hm, hu, hur, hv, hvr, hall, hreq⟩ := hw
  obtain ⟨stF, hfull, _, hoff, _⟩ := resume_well_formed m u v hs hm hu hur hv hvr hall
  rw [← hreq] at hfull hoff
  have hk : ∀ k, k < chunks.length →
      (feed [] ParserState.initial chunks)[k]? =
        some (resume (chunks.take (k + 1)).flatten ParserState.initial) := by
    intro k hk
    rw [feed_initial, List.getElem?_map, List.getElem?_range hk]
    rfl
  have hne : chunks ≠ [] := by
    intro h0
    rw [h0] at hj
    rw [← hj] at hfull
    have h1 : resume [] ParserState.initial = (stF, HTTP_CODE.GET_REQUEST) := hfull
    rw [resume_nil ParserState.initial (Or.inl rfl)] at h1
    simp at h1
  have hpos : 0 < chunks.length := List.length_pos.2 hne
  refine ⟨hk, ?_, by rw [hfull], ?_⟩
  · rw [List.getLast?_eq_getElem?]
    have hl : (feed [] ParserState.initial chunks).length = chunks.length := by
      rw [feed_initial]; simp
    rw [hl, hk (chunks.length - 1) (by omega)]
    have : chunks.length - 1 + 1 = chunks.length := by omega
    rw [this, List.take_length, hj]
  · intro k hklt hproper
    rw [List.getElem?_map, hk k hklt]
    simp only [Option.map_some']
    congr 1
    have hsplit : req = (chunks.take (k + 1)).flatten ++ (chunks.drop (k + 1)).flatten := by
      rw [← List.flatten_append, List.take_append_drop, hj]
    have he : (chunks.drop (k + 1)).flatten ≠ [] := by
      intro h0
      rw [h0, List.append_nil] at hsplit
      exact hproper hsplit.symm
    rw [hsplit] at hfull hoff
    exact resume_proper_part _ _ he stF hfull hoff

theorem sample_well_formed : well_formed Request.sample :=
  ⟨"GET".toList, "/index".toList, "HTTP/1.1".toList,
    ["Host: example.com".toList, "Connection: keep-alive".toList],
    by decide, by decide, by decide, by decide, by decide, by decide, by decide⟩

/-- Witness for C10: the example request of the spec in three chunks. -/
theorem C10_parser_resumable_witness :
    (feed [] ParserState.initial Request.sample_chunks).getLast? =
        some (resume Request.sample ParserState.initial) ∧
      (resume Request.sample ParserState.initial).2 = HTTP_CODE.GET_REQUEST ∧
      (resume Request.sample ParserState.initial).1.parsed =
        ⟨"GET".toList, "/index".toList, "HTTP/1.1".toList, "example.com".toList,
          "keep-alive".toList⟩ ∧
      (feed [] ParserState.initial Request.sample_chunks).map Prod.snd =
        [HTTP_CODE.MORE_DATA, HTTP_CODE.MORE_DATA, HTTP_CODE.GET_REQUEST] :=
  ⟨(C10_parser_resumable Request.sample Request.sample_chunks sample_well_formed
      (by decide)).2.1,
    (C10_parser_resumable Request.sample Request.sample_chunks sample_well_formed
      (by decide)).2.2.1,
    by decide, by decide⟩

/-! ## The one-shot invariant -/

theorem modfd_events_flags (ev : Nat) :
    modfd_events ev &&& (EPOLLONESHOT ||| EPOLLET ||| EPOLLRDHUP) =
      EPOLLONESHOT ||| EPOLLET ||| EPOLLRDHUP := by
  have h : modfd_events ev = ev ||| (EPOLLONESHOT ||| EPOLLET ||| EPOLLRDHUP) := by
    unfold modfd_events
    rw [Nat.or_assoc, Nat.or_assoc, Nat.or_assoc]
    congr 1
  rw [h]
  exact or_and_self _ _

theorem modfd_events_oneshot (ev : Nat) : modfd_events ev &&& EPOLLONESHOT ≠ 0 := by
  have h := modfd_events_flags ev
  have h1 : (EPOLLONESHOT ||| EPOLLET ||| EPOLLRDHUP) &&& EPOLLONESHOT = EPOLLONESHOT := by decide
  have h2 : modfd_events ev &&& EPOLLONESHOT = EPOLLONESHOT := by
    rw [← h1, ← Nat.and_assoc, h]
  rw [h2]
  decide

theorem armed_false_iff (s : Sys) (fd : Int) :
    s.armed fd = false ↔ ∀ r, s.regs fd = some r → r.armed = false := by
  unfold Sys.armed
  cases h : s.regs fd with
  | none => simp
  | some r => simp

theorem data_eq (s : Sys) (hi : Inv s) (fd : Int) : s.data fd = fd := by
  unfold Sys.data
  cases h : s.regs fd with
  | none => rfl
  | some r => exact (hi.regs_ok fd r h).2.1

theorem inv_take (s : Sys) (hi : Inv s) : Inv (exec_take s) := by
  unfold exec_take
  cases hq : s.env.pool.queue with
  | nil => simpa [hq] using hi
  | cons t q =>
    simp only
    have hperm : (q.map Prod.snd ++ t.2 :: s.running).Perm s.in_flight := by
      unfold Sys.in_flight
      rw [hq, List.map_cons, List.cons_append]
      exact List.perm_middle
    exact
      { nodup_dispatched := hi.nodup_dispatched
        nodup_in_flight := hperm.nodup_iff.2 hi.nodup_in_flight
        in_flight_dispatched := fun fd hfd => hi.in_flight_dispatched fd (hperm.mem_iff.1 hfd)
        dispatched_open := hi.dispatched_open
        dispatched_unarmed := hi.dispatched_unarmed
        dispatched_not_batch := hi.dispatched_not_batch
        batch_open := hi.batch_open
        batch_nodup := hi.batch_nodup
        regs_ok := hi.regs_ok
        listen_open := hi.listen_open }

theorem armed_congr (s t : Sys) (x : Int) (h : t.regs x = s.regs x) : t.armed x = s.armed x := by
  unfold Sys.armed
  rw [h]

theorem finish_facts (s : Sys) (hi : Inv s) (fd : Int) (hfd : fd ∈ s.running) :
    fd ∈ s.dispatched ∧
      (s.env.pool.queue.map Prod.snd ++ s.running.erase fd).Nodup ∧
      (∀ x ∈ s.env.pool.queue.map Prod.snd ++ s.running.erase fd,
        x ≠ fd ∧ x ∈ s.dispatched.erase fd) ∧
      (∀ x ∈ s.dispatched.erase fd, x ≠ fd ∧ x ∈ s.dispatched) := by
  have hnd := hi.nodup_in_flight
  unfold Sys.in_flight at hnd
  have hrun : s.running.Nodup := (List.nodup_append.1 hnd).2.1
  have hdisj := (List.nodup_append.1 hnd).2.2
  have hfdd : fd ∈ s.dispatched :=
    hi.in_flight_dispatched fd (List.mem_append_right _ hfd)
  have hne : ∀ x ∈ s.env.pool.queue.map Prod.snd ++ s.running.erase fd, x ≠ fd := by
    intro x hx
    rcases List.mem_append.1 hx with hx | hx
    · intro h
      rw [h] at hx
      exact hdisj hx hfd
    · exact ((List.Nodup.mem_erase_iff hrun).1 hx).1
  have hsub : ∀ x ∈ s.env.pool.queue.map Prod.snd ++ s.running.erase fd, x ∈ s.in_flight := by
    intro x hx
    unfold Sys.in_flight
    rcases List.mem_append.1 hx with hx | hx
    · exact List.mem_append_left _ hx
    · exact List.mem_append_right _ (List.mem_of_mem_erase hx)
  refine ⟨hfdd, ?_, ?_, ?_⟩
  · exact List.Nodup.sublist
      (List.Sublist.append (List.Sublist.refl _) (List.erase_sublist _ _)) hnd
  · intro x hx
    exact ⟨hne x hx, (List.Nodup.mem_erase_iff hi.nodup_dispatched).2
      ⟨hne x hx, hi.in_flight_dispatched x (hsub x hx)⟩⟩
  · intro x hx
    exact (List.Nodup.mem_erase_iff hi.nodup_dispatched).1 hx

theorem inv_rearm (s : Sys) (hi : Inv s) (fd : Int) (hfd : fd ∈ s.running) (env1 : Env)
    (hpool : env1.pool = s.env.pool) (ev : Nat) (regs1 : Int → Option Reg)
    (hregs : regs1 = s.regs ∨
      (s.regs fd ≠ none ∧
        regs1 = Function.update s.regs fd (some ⟨modfd_events ev, fd, true⟩))) :
    Inv { s with env := env1, regs := regs1, running := s.running.erase fd,
                 dispatched := s.dispatched.erase fd } := by
  obtain ⟨hfdd, hnd, hfl, hdis⟩ := finish_facts s hi fd hfd
  have hother : ∀ x, x ≠ fd → regs1 x = s.regs x := by
    intro x hx
    rcases hregs with h | ⟨_, h⟩
    · rw [h]
    · rw [h, Function.update_noteq hx]
  exact
    { nodup_dispatched := List.Nodup.erase fd hi.nodup_dispatched
      nodup_in_flight := by
        unfold Sys.in_flight
        simp only [hpool]
        exact hnd
      in_flight_dispatched := by
        intro x hx
        unfold Sys.in_flight at hx
        simp only [hpool] at hx
        exact (hfl x hx).2
      dispatched_open := fun x hx => hi.dispatched_open x (hdis x hx).2
      dispatched_unarmed := by
        intro x hx
        rw [armed_congr s _ x (hother x (hdis x hx).1)]
        exact hi.dispatched_unarmed x (hdis x hx).2
      dispatched_not_batch := fun x hx => hi.dispatched_not_batch x (hdis x hx).2
      batch_open := by
        intro e he hl
        have hne : e.fd ≠ fd := hi.dispatched_not_batch fd hfdd e he
        rw [armed_congr s _ e.fd (hother e.fd hne)]
        exact hi.batch_open e he hl
      batch_nodup := hi.batch_nodup
      regs_ok := by
        intro x r hr
        simp only at hr
        by_cases hx : x = fd
        · rcases hregs with h | ⟨_, h⟩
          · rw [h] at hr
            exact hi.regs_ok x r hr
          · rw [h, hx, Function.update_same] at hr
            have hr1 : r = ⟨modfd_events ev, fd, true⟩ := (Option.some.inj hr).symm
            rw [hr1, hx]
            exact ⟨(hi.dispatched_open fd hfdd).1, rfl, fun _ => modfd_events_oneshot ev⟩
        · rw [hother x hx] at hr
          exact hi.regs_ok x r hr
      listen_open := hi.listen_open }

theorem inv_close (s : Sys) (hi : Inv s) (fd : Int) (hfd : fd ∈ s.running) (env1 : Env)
    (hpool : env1.pool = s.env.pool) :
    Inv { s with env := env1, opened := Function.update s.opened fd false,
                 regs := Function.update s.regs fd none, running := s.running.erase fd,
                 dispatched := s.dispatched.erase fd } := by
  obtain ⟨hfdd, hnd, hfl, hdis⟩ := finish_facts s hi fd hfd
  have hother : ∀ x, x ≠ fd → Function.update s.regs fd none x = s.regs x :=
    fun x hx => Function.update_noteq hx _ _
  exact
    { nodup_dispatched := List.Nodup.erase fd hi.nodup_dispatched
      nodup_in_flight := by
        unfold Sys.in_flight
        simp only [hpool]
        exact hnd
      in_flight_dispatched := by
        intro x hx
        unfold Sys.in_flight at hx
        simp only [hpool] at hx
        exact (hfl x hx).2
      dispatched_open := by
        intro x hx
        simp only [Function.update_noteq (hdis x hx).1]
        exact hi.dispatched_open x (hdis x hx).2
      dispatched_unarmed := by
        intro x hx
        rw [armed_congr s _ x (hother x (hdis x hx).1)]
        exact hi.dispatched_unarmed x (hdis x hx).2
      dispatched_not_batch := fun x hx => hi.dispatched_not_batch x (hdis x hx).2
      batch_open := by
        intro e he hl
        have hne : e.fd ≠ fd := hi.dispatched_not_batch fd hfdd e he
        rw [armed_congr s _ e.fd (hother e.fd hne)]
        simp only [Function.update_noteq hne]
        exact hi.batch_open e he hl
      batch_nodup := hi.batch_nodup
      regs_ok := by
        intro x r hr
        simp only at hr
        by_cases hx : x = fd
        · rw [hx, Function.update_same] at hr
          exact absurd hr (by simp)
        · rw [Function.update_noteq hx] at hr
          simp only [Function.update_noteq hx]
          exact hi.regs_ok x r hr
      listen_open := by
        have hne : s.listenfd ≠ fd := fun h => (hi.dispatched_open fd hfdd).2 h.symm
        simp only [Function.update_noteq hne]
        exact hi.listen_open }

theorem modfd_new_calls (epollfd fd : Int) (ev : Nat) (env : Env) :
    new_calls env (modfd epollfd fd ev env) =
      [Call.epoll_ctl epollfd EPOLL_CTL_MOD fd (modfd_events ev) fd (env.ctl EPOLL_CTL_MOD fd)] :=
  new_calls_of_append _ _ _ rfl

theorem rm_sockfd_new_calls (epollfd fd : Int) (env : Env) :
    new_calls env (rm_sockfd epollfd fd env) =
      [Call.epoll_ctl epollfd EPOLL_CTL_DEL fd 0 0 (env.ctl EPOLL_CTL_DEL fd), Call.close fd] :=
  new_calls_of_append _ _ _ (by simp [rm_sockfd, Env.log])

theorem inv_finish_modfd (s : Sys) (hi : Inv s) (fd : Int) (hfd : fd ∈ s.running) (ev : Nat) :
    Inv (kernel_calls (new_calls s.env (modfd s.epollfd fd ev s.env))
      { s with env := modfd s.epollfd fd ev s.env, running := s.running.erase fd,
               dispatched := s.dispatched.erase fd }) := by
  rw [modfd_new_calls]
  simp only [kernel_calls, List.foldl, kernel_call]
  by_cases hret : s.env.ctl EPOLL_CTL_MOD fd < 0
  · simp only [hret, if_true]
    exact inv_rearm s hi fd hfd (modfd s.epollfd fd ev s.env) rfl ev s.regs (Or.inl rfl)
  · simp only [hret, if_false]
    have h1 : ¬ (EPOLL_CTL_MOD = EPOLL_CTL_ADD) := by decide
    simp only [h1, if_false, if_true]
    by_cases hreg : s.regs fd = none
    · simp only [hreg, ne_eq, not_true_eq_false, if_false]
      exact inv_rearm s hi fd hfd (modfd s.epollfd fd ev s.env) rfl ev s.regs (Or.inl rfl)
    · simp only [ne_eq, hreg, not_false_eq_true, if_true]
      exact inv_rearm s hi fd hfd (modfd s.epollfd fd ev s.env) rfl ev _ (Or.inr ⟨hreg, rfl⟩)

theorem inv_finish (s : Sys) (hi : Inv s) (fd : Int) (act : NextAction) :
    Inv (exec_finish fd act s) := by
  unfold exec_finish
  by_cases hfd : fd ∈ s.running
  · simp only [hfd, if_true]
    cases act with
    | REARM_READ => exact inv_finish_modfd s hi fd hfd EPOLLIN
    | SWITCH_TO_WRITE => exact inv_finish_modfd s hi fd hfd EPOLLOUT
    | CLOSE =>
      simp only
      rw [rm_sockfd_new_calls]
      simp only [kernel_calls, List.foldl, kernel_call]
      have h1 : ¬ (EPOLL_CTL_DEL = EPOLL_CTL_ADD) := by decide
      have h2 : ¬ (EPOLL_CTL_DEL = EPOLL_CTL_MOD) := by decide
      by_cases hret : s.env.ctl EPOLL_CTL_DEL fd < 0
      · simp only [hret, if_true]
        exact inv_close s hi fd hfd (rm_sockfd s.epollfd fd s.env) rfl
      · simp only [hret, if_false, h1, h2, if_true, Function.update_idem]
        exact inv_close s hi fd hfd (rm_sockfd s.epollfd fd s.env) rfl
  · simp only [hfd, if_false]
    exact hi

/-- The registrations after an `epoll_wait` that reported `fds`. -/
theorem wait_regs_cases (regs : Int → Option Reg) (fds : List Int) (x : Int) :
    (regs x = none ∧
      (match regs x with
        | some r =>
          if x ∈ fds ∧ r.events &&& EPOLLONESHOT ≠ 0 then some { r with armed := false }
          else some r
        | none => none) = none) ∨
    (∃ r, regs x = some r ∧ (x ∈ fds ∧ r.events &&& EPOLLONESHOT ≠ 0) ∧
      (match regs x with
        | some r =>
          if x ∈ fds ∧ r.events &&& EPOLLONESHOT ≠ 0 then some { r with armed := false }
          else some r
        | none => none) = some { r with armed := false }) ∨
    (∃ r, regs x = some r ∧ ¬ (x ∈ fds ∧ r.events &&& EPOLLONESHOT ≠ 0) ∧
      (match regs x with
        | some r =>
          if x ∈ fds ∧ r.events &&& EPOLLONESHOT ≠ 0 then some { r with armed := false }
          else some r
        | none => none) = some r) := by
  cases h : regs x with
  | none => exact Or.inl ⟨rfl, rfl⟩
  | some r =>
    by_cases hc : x ∈ fds ∧ r.events &&& EPOLLONESHOT ≠ 0
    · exact Or.inr (Or.inl ⟨r, rfl, hc, if_pos hc⟩)
    · exact Or.inr (Or.inr ⟨r, rfl, hc, if_neg hc⟩)

theorem inv_wait (s : Sys) (hi : Inv s) (fired : List (Int × Nat)) :
    Inv (exec_wait fired s) := by
  unfold exec_wait
  by_cases hg : s.batch = [] ∧ (fired.map Prod.fst).Nodup ∧
      fired.all (fun p => s.armed p.1) = true
  · rw [if_pos hg]
    obtain ⟨_, hnd, hall⟩ := hg
    have hfired : ∀ p ∈ fired, s.armed p.1 = true := by
      intro p hp
      exact (List.all_eq_true.1 hall) p hp
    have hbatch : ∀ ev ∈ fired.map (fun p => (⟨p.2, s.data p.1⟩ : epoll_event)),
        ev.fd ∈ fired.map Prod.fst ∧ s.armed ev.fd = true := by
      intro ev hev
      obtain ⟨p, hp, rfl⟩ := List.mem_map.1 hev
      simp only [data_eq s hi]
      exact ⟨List.mem_map.2 ⟨p, hp, rfl⟩, hfired p hp⟩
    have hmono : ∀ (t : Sys) (x : Int),
        t.regs x = (match s.regs x with
          | some r =>
            if x ∈ fired.map Prod.fst ∧ r.events &&& EPOLLONESHOT ≠ 0 then
              some { r with armed := false }
            else some r
          | none => none) →
        (t.armed x = true → s.armed x = true) ∧
        (x ∈ fired.map Prod.fst → x ≠ s.listenfd → t.armed x = false) ∧
        (∀ r1, t.regs x = some r1 → ∃ r, s.regs x = some r ∧ r1.events = r.events ∧
          r1.data = r.data) := by
      intro t x ht
      rcases wait_regs_cases s.regs (fired.map Prod.fst) x with
        ⟨h0, h1⟩ | ⟨r, h0, hc, h1⟩ | ⟨r, h0, hc, h1⟩
      · rw [h1] at ht
        refine ⟨?_, ?_, ?_⟩
        · intro h; simp [Sys.armed, ht] at h
        · intro _ _; simp [Sys.armed, ht]
        · intro r1 hr1; rw [ht] at hr1; simp at hr1
      · rw [h1] at ht
        refine ⟨?_, ?_, ?_⟩
        · intro h; simp [Sys.armed, ht] at h
        · intro _ _; simp [Sys.armed, ht]
        · intro r1 hr1
          rw [ht] at hr1
          have e := (Option.some.inj hr1).symm
          exact ⟨r, h0, by rw [e], by rw [e]⟩
      · rw [h1] at ht
        refine ⟨?_, ?_, ?_⟩
        · intro h
          simp only [Sys.armed, ht] at h
          simp only [Sys.armed, h0]
          exact h
        · intro hx hl
          exact absurd ⟨hx, (hi.regs_ok x r h0).2.2 hl⟩ hc
        · intro r1 hr1
          rw [ht] at hr1
          have e := (Option.some.inj hr1).symm
          exact ⟨r, h0, by rw [e], by rw [e]⟩
    exact
      { nodup_dispatched := hi.nodup_dispatched
        nodup_in_flight := hi.nodup_in_flight
        in_flight_dispatched := hi.in_flight_dispatched
        dispatched_open := hi.dispatched_open
        dispatched_unarmed := by
          intro x hx
          have h := hi.dispatched_unarmed x hx
          cases ha : Sys.armed _ x with
          | false => rfl
          | true =>
            have := (hmono _ x rfl).1 ha
            rw [h] at this
            exact absurd this (by decide)
        dispatched_not_batch := by
          intro x hx ev hev hfd
          have h1 := (hbatch ev hev).2
          rw [hfd, hi.dispatched_unarmed x hx] at h1
          exact absurd h1 (by decide)
        batch_open := by
          intro ev hev hl
          have h1 := hbatch ev hev
          have hex : ∃ r, s.regs ev.fd = some r := by
            have h2 := h1.2
            unfold Sys.armed at h2
            cases hr : s.regs ev.fd with
            | none => rw [hr] at h2; exact absurd h2 (by decide)
            | some r => exact ⟨r, rfl⟩
          obtain ⟨r, hr⟩ := hex
          exact ⟨(hi.regs_ok ev.fd r hr).1, (hmono _ ev.fd rfl).2.1 h1.1 hl⟩
        batch_nodup := by
          have e : (fired.map (fun p => (⟨p.2, s.data p.1⟩ : epoll_event))).map
              (fun ev => ev.fd) = fired.map Prod.fst := by
            rw [List.map_map]
            apply List.map_congr_left
            intro p _
            simp only [Function.comp, data_eq s hi]
          simp only [e]
          exact hnd
        regs_ok := by
          intro x r1 hr1
          obtain ⟨r, hr, he, hd⟩ := (hmono _ x rfl).2.2 r1 hr1
          have h := hi.regs_ok x r hr
          exact ⟨h.1, by rw [hd]; exact h.2.1, fun hl => by rw [he]; exact h.2.2 hl⟩
        listen_open := hi.listen_open }
  · rw [if_neg hg]
    exact hi

theorem head_facts (s : Sys) (hi : Inv s) (ev : epoll_event) (rest : List epoll_event)
    (hb : s.batch = ev :: rest) :
    (∀ e ∈ rest, e.fd ≠ ev.fd) ∧ (rest.map (fun e => e.fd)).Nodup ∧
      (∀ e ∈ rest, e ∈ s.batch) ∧ ev ∈ s.batch := by
  have hnd := hi.batch_nodup
  rw [hb, List.map_cons, List.nodup_cons] at hnd
  refine ⟨?_, hnd.2, ?_, ?_⟩
  · intro e he h
    exact hnd.1 (List.mem_map.2 ⟨e, he, h⟩)
  · intro e he
    rw [hb]
    exact List.mem_cons_of_mem _ he
  · rw [hb]
    exact List.mem_cons_self _ _

theorem in_flight_congr (s t : Sys) (hq : t.env.pool.queue = s.env.pool.queue)
    (hr : t.running = s.running) : t.in_flight = s.in_flight := by
  unfold Sys.in_flight
  rw [hq, hr]

theorem inv_pop (s : Sys) (hi : Inv s) (ev : epoll_event) (rest : List epoll_event)
    (hb : s.batch = ev :: rest) (env1 : Env) (hpool : env1.pool = s.env.pool) :
    Inv { s with env := env1, batch := rest } := by
  obtain ⟨_, hnd, hsub, _⟩ := head_facts s hi ev rest hb
  have hfl : Sys.in_flight { s with env := env1, batch := rest } = s.in_flight :=
    in_flight_congr s _ (by simp only [hpool]) rfl
  exact
    { nodup_dispatched := hi.nodup_dispatched
      nodup_in_flight := by rw [hfl]; exact hi.nodup_in_flight
      in_flight_dispatched := by rw [hfl]; exact hi.in_flight_dispatched
      dispatched_open := hi.dispatched_open
      dispatched_unarmed := hi.dispatched_unarmed
      dispatched_not_batch := fun x hx e he => hi.dispatched_not_batch x hx e (hsub e he)
      batch_open := fun e he hl => hi.batch_open e (hsub e he) hl
      batch_nodup := hnd
      regs_ok := hi.regs_ok
      listen_open := hi.listen_open }

theorem inv_reactor_close (s : Sys) (hi : Inv s) (ev : epoll_event) (rest : List epoll_event)
    (hb : s.batch = ev :: rest) (hl : ev.fd ≠ s.listenfd) (env1 : Env)
    (hpool : env1.pool = s.env.pool) :
    Inv { s with env := env1, batch := rest, opened := Function.update s.opened ev.fd false,
                 regs := Function.update s.regs ev.fd none } := by
  obtain ⟨hne, hnd, hsub, hmem⟩ := head_facts s hi ev rest hb
  have hfl : Sys.in_flight
      { s with env := env1, batch := rest,
               opened := Function.update s.opened ev.fd false,
               regs := Function.update s.regs ev.fd none } = s.in_flight :=
    in_flight_congr s _ (by simp only [hpool]) rfl
  have hother : ∀ x, x ≠ ev.fd → Function.update s.regs ev.fd none x = s.regs x :=
    fun x hx => Function.update_noteq hx _ _
  have hdne : ∀ x ∈ s.dispatched, x ≠ ev.fd :=
    fun x hx h => hi.dispatched_not_batch x hx ev hmem h.symm
  exact
    { nodup_dispatched := hi.nodup_dispatched
      nodup_in_flight := by rw [hfl]; exact hi.nodup_in_flight
      in_flight_dispatched := by rw [hfl]; exact hi.in_flight_dispatched
      dispatched_open := by
        intro x hx
        simp only [Function.update_noteq (hdne x hx)]
        exact hi.dispatched_open x hx
      dispatched_unarmed := by
        intro x hx
        rw [armed_congr s _ x (hother x (hdne x hx))]
        exact hi.dispatched_unarmed x hx
      dispatched_not_batch := fun x hx e he => hi.dispatched_not_batch x hx e (hsub e he)
      batch_open := by
        intro e he hle
        rw [armed_congr s _ e.fd (hother e.fd (hne e he))]
        simp only [Function.update_noteq (hne e he)]
        exact hi.batch_open e (hsub e he) hle
      batch_nodup := hnd
      regs_ok := by
        intro x r hr
        simp only at hr
        by_cases hx : x = ev.fd
        · rw [hx, Function.update_same] at hr
          exact absurd hr (by simp)
        · rw [Function.update_noteq hx] at hr
          simp only [Function.update_noteq hx]
          exact hi.regs_ok x r hr
      listen_open := by
        simp only [Function.update_noteq (Ne.symm hl)]
        exact hi.listen_open }

theorem inv_dispatch (s : Sys) (hi : Inv s) (ev : epoll_event) (rest : List epoll_event)
    (hb : s.batch = ev :: rest) (hl : ev.fd ≠ s.listenfd) (env1 : Env)
    (hq : env1.pool.queue = s.env.pool.queue ∨
      env1.pool.queue = s.env.pool.queue ++ [(s.epollfd, ev.fd)]) :
    Inv { s with env := env1, batch := rest, dispatched := ev.fd :: s.dispatched } := by
  obtain ⟨hne, hnd, hsub, hmem⟩ := head_facts s hi ev rest hb
  have hnew : ev.fd ∉ s.dispatched :=
    fun h => hi.dispatched_not_batch ev.fd h ev hmem rfl
  have hnfl : ev.fd ∉ s.in_flight := fun h => hnew (hi.in_flight_dispatched ev.fd h)
  have hfl :
      Sys.in_flight
        { s with env := env1, batch := rest, dispatched := ev.fd :: s.dispatched } =
          s.in_flight ∨
      (Sys.in_flight
        { s with env := env1, batch := rest, dispatched := ev.fd :: s.dispatched }).Perm
          (ev.fd :: s.in_flight) := by
    rcases hq with h | h
    · exact Or.inl (in_flight_congr s _ h rfl)
    · right
      unfold Sys.in_flight
      simp only [h, List.map_append, List.map_cons, List.map_nil, List.append_assoc,
        List.singleton_append]
      exact List.perm_middle
  have hopen := hi.batch_open ev hmem hl
  exact
    { nodup_dispatched := List.nodup_cons.2 ⟨hnew, hi.nodup_dispatched⟩
      nodup_in_flight := by
        rcases hfl with h | h
        · rw [h]; exact hi.nodup_in_flight
        · exact h.nodup_iff.2 (List.nodup_cons.2 ⟨hnfl, hi.nodup_in_flight⟩)
      in_flight_dispatched := by
        intro x hx
        rcases hfl with h | h
        · rw [h] at hx
          exact List.mem_cons_of_mem _ (hi.in_flight_dispatched x hx)
        · rcases List.mem_cons.1 (h.mem_iff.1 hx) with hx | hx
          · rw [hx]; exact List.mem_cons_self _ _
          · exact List.mem_cons_of_mem _ (hi.in_flight_dispatched x hx)
      dispatched_open := by
        intro x hx
        rcases List.mem_cons.1 hx with hx | hx
        · rw [hx]; exact ⟨hopen.1, hl⟩
        · exact hi.dispatched_open x hx
      dispatched_unarmed := by
        intro x hx
        rcases List.mem_cons.1 hx with hx | hx
        · rw [hx]; exact hopen.2
        · exact hi.dispatched_unarmed x hx
      dispatched_not_batch := by
        intro x hx e he
        rcases List.mem_cons.1 hx with hx | hx
        · rw [hx]; exact hne e he
        · exact hi.dispatched_not_batch x hx e (hsub e he)
      batch_open := fun e he hle => hi.batch_open e (hsub e he) hle
      batch_nodup := hnd
      regs_ok := hi.regs_ok
      listen_open := hi.listen_open }

theorem inv_accept (s : Sys) (hi : Inv s) (ev : epoll_event) (rest : List epoll_event)
    (hb : s.batch = ev :: rest) (env1 : Env) (hpool : env1.pool = s.env.pool) (r : Int)
    (hfresh : s.opened r = false) (regs1 : Int → Option Reg)
    (hregs : regs1 = s.regs ∨
      regs1 = Function.update s.regs r (some ⟨add_sockfd_events true, r, true⟩)) :
    Inv { s with env := env1, batch := rest, opened := Function.update s.opened r true,
                 regs := regs1 } := by
  obtain ⟨_, hnd, hsub, _⟩ := head_facts s hi ev rest hb
  have hfl : Sys.in_flight
      { s with env := env1, batch := rest,
               opened := Function.update s.opened r true, regs := regs1 } = s.in_flight :=
    in_flight_congr s _ (by simp only [hpool]) rfl
  have hother : ∀ x, x ≠ r → regs1 x = s.regs x := by
    intro x hx
    rcases hregs with h | h
    · rw [h]
    · rw [h, Function.update_noteq hx]
  have hopened : ∀ x, s.opened x = true → x ≠ r := by
    intro x hx h
    rw [h, hfresh] at hx
    exact absurd hx (by decide)
  exact
    { nodup_dispatched := hi.nodup_dispatched
      nodup_in_flight := by rw [hfl]; exact hi.nodup_in_flight
      in_flight_dispatched := by rw [hfl]; exact hi.in_flight_dispatched
      dispatched_open := by
        intro x hx
        have h := hi.dispatched_open x hx
        simp only [Function.update_noteq (hopened x h.1)]
        exact h
      dispatched_unarmed := by
        intro x hx
        rw [armed_congr s _ x (hother x (hopened x (hi.dispatched_open x hx).1))]
        exact hi.dispatched_unarmed x hx
      dispatched_not_batch := fun x hx e he => hi.dispatched_not_batch x hx e (hsub e he)
      batch_open := by
        intro e he hle
        have h := hi.batch_open e (hsub e he) hle
        rw [armed_congr s _ e.fd (hother e.fd (hopened e.fd h.1))]
        simp only [Function.update_noteq (hopened e.fd h.1)]
        exact h
      batch_nodup := hnd
      regs_ok := by
        intro x r1 hr1
        simp only at hr1
        by_cases hx : x = r
        · rcases hregs with h | h
          · rw [h] at hr1
            have := (hi.regs_ok x r1 hr1).1
            exact absurd hx (hopened x this)
          · rw [h, hx, Function.update_same] at hr1
            have e := (Option.some.inj hr1).symm
            rw [e, hx]
            have hone : add_sockfd_events true &&& EPOLLONESHOT ≠ 0 := by decide
            exact ⟨Function.update_same _ _ _, rfl, fun _ => hone⟩
        · rw [hother x hx] at hr1
          simp only [Function.update_noteq hx]
          exact hi.regs_ok x r1 hr1
      listen_open := by
        simp only [Function.update_noteq (hopened s.listenfd hi.listen_open)]
        exact hi.listen_open }

theorem handle_event_client (listenfd epollfd : Int) (ev : epoll_event) (env : Env)
    (h : ev.fd ≠ listenfd) :
    handle_event listenfd epollfd ev env =
      if ev.events &&& (EPOLLRDHUP ||| EPOLLHUP ||| EPOLLERR) ≠ 0 then env.log (Call.close ev.fd)
      else if ev.events &&& EPOLLIN ≠ 0 then pool_add epollfd ev.fd env
      else env := by
  unfold handle_event
  simp only [h, if_false]

theorem pool_add_queue (epollfd sockfd : Int) (env : Env) :
    (pool_add epollfd sockfd env).pool.queue = env.pool.queue ∨
      (pool_add epollfd sockfd env).pool.queue = env.pool.queue ++ [(epollfd, sockfd)] := by
  unfold pool_add threadpool.add
  by_cases h : env.pool.capacity ≤ env.pool.queue.length
  · left; simp [h, Env.log]
  · right; simp [h, Env.log]

theorem inv_handle (s : Sys) (hi : Inv s) : Inv (exec_handle s) := by
  unfold exec_handle
  cases hb : s.batch with
  | nil => simpa [hb] using hi
  | cons ev rest =>
    simp only
    by_cases hfresh : fresh_accepts s
        (new_calls s.env (handle_event s.listenfd s.epollfd ev s.env)) = true
    · rw [if_pos hfresh]
      by_cases hl : ev.fd = s.listenfd
      · cases hp : s.env.pending with
        | nil =>
          have he := handle_event_listener_none s.listenfd s.epollfd ev s.env hl hp
          have hc : new_calls s.env (handle_event s.listenfd s.epollfd ev s.env) =
              [Call.accept s.listenfd (-1), Call.cout_error EAGAIN] := by
            rw [he]; exact new_calls_of_append _ _ _ (by simp [Env.log])
          rw [hc]
          have hneg : ¬ ((0 : Int) ≤ -1) := by decide
          simp only [kernel_calls, List.foldl, kernel_call, hneg, if_false, submitted,
            List.map_nil, List.nil_append]
          exact inv_pop s hi ev rest hb _ (by rw [he]; rfl)
        | cons r pend =>
          by_cases hr : r.1 < 0
          · have he := handle_event_listener_fail s.listenfd s.epollfd ev s.env r pend hl hp hr
            have hc : new_calls s.env (handle_event s.listenfd s.epollfd ev s.env) =
                [Call.accept s.listenfd r.1, Call.cout_error r.2] := by
              rw [he]; exact new_calls_of_append _ _ _ (by simp [Env.log])
            rw [hc]
            have hneg : ¬ ((0 : Int) ≤ r.1) := not_le.mpr hr
            simp only [kernel_calls, List.foldl, kernel_call, hneg, if_false, submitted,
              List.map_nil, List.nil_append]
            exact inv_pop s hi ev rest hb _ (by rw [he]; rfl)
          · have hr0 : (0 : Int) ≤ r.1 := not_lt.mp hr
            have he := handle_event_listener_conn s.listenfd s.epollfd ev s.env r pend hl hp hr0
            have hc : new_calls s.env (handle_event s.listenfd s.epollfd ev s.env) =
                [Call.accept s.listenfd r.1,
                  Call.epoll_ctl s.epollfd EPOLL_CTL_ADD r.1 (add_sockfd_events true) r.1
                    (s.env.ctl EPOLL_CTL_ADD r.1),
                  Call.fcntl_getfl r.1 (s.env.getfl r.1),
                  Call.fcntl_setfl r.1 (Int.lor (s.env.getfl r.1) O_NONBLOCK)] := by
              rw [he]
              apply new_calls_of_append
              rw [add_sockfd_calls]
              simp [Env.log]
            have hnew : s.opened r.1 = false := by
              rw [hc] at hfresh
              simp only [fresh_accepts, List.all_cons, List.all_nil, Bool.and_true,
                Bool.or_eq_true, decide_eq_true_eq, Bool.not_eq_true'] at hfresh
              rcases hfresh with h | h
              · exact absurd h hr
              · exact h
            rw [hc]
            simp only [kernel_calls, List.foldl, kernel_call, hr0, if_true, submitted,
              List.map_nil, List.nil_append]
            have hpool : (handle_event s.listenfd s.epollfd ev s.env).pool = s.env.pool := by
              rw [he]; rfl
            by_cases hret : s.env.ctl EPOLL_CTL_ADD r.1 < 0
            · simp only [hret, if_true]
              exact inv_accept s hi ev rest hb _ hpool r.1 hnew s.regs (Or.inl rfl)
            · simp only [hret, if_false, if_true, Function.update_same, true_and]
              by_cases hreg : s.regs r.1 = none
              · simp only [hreg, if_true]
                exact inv_accept s hi ev rest hb _ hpool r.1 hnew _ (Or.inr rfl)
              · simp only [hreg, if_false]
                exact inv_accept s hi ev rest hb _ hpool r.1 hnew s.regs (Or.inl rfl)
      · have he := handle_event_client s.listenfd s.epollfd ev s.env hl
        by_cases hf : ev.events &&& (EPOLLRDHUP ||| EPOLLHUP ||| EPOLLERR) ≠ 0
        · rw [if_pos hf] at he
          have hc : new_calls s.env (handle_event s.listenfd s.epollfd ev s.env) =
              [Call.close ev.fd] := by
            rw [he]; exact new_calls_of_append _ _ _ rfl
          rw [hc]
          simp only [kernel_calls, List.foldl, kernel_call, submitted, List.map_nil,
            List.nil_append]
          exact inv_reactor_close s hi ev rest hb hl _ (by rw [he]; rfl)
        · rw [if_neg hf] at he
          by_cases hin : ev.events &&& EPOLLIN ≠ 0
          · rw [if_pos hin] at he
            have hc : new_calls s.env (handle_event s.listenfd s.epollfd ev s.env) =
                [Call.pool_add s.epollfd ev.fd (s.env.pool.add (s.epollfd, ev.fd)).1] := by
              rw [he]; exact new_calls_of_append _ _ _ (pool_add_calls _ _ _)
            rw [hc]
            simp only [kernel_calls, List.foldl, kernel_call, submitted, List.map_cons,
              List.map_nil, List.singleton_append]
            exact inv_dispatch s hi ev rest hb hl _ (by rw [he]; exact pool_add_queue _ _ _)
          · rw [if_neg hin] at he
            have hc : new_calls s.env (handle_event s.listenfd s.epollfd ev s.env) = [] := by
              rw [he]; exact new_calls_of_append _ _ _ (by simp)
            rw [hc]
            simp only [kernel_calls, List.foldl, submitted, List.map_nil, List.nil_append]
            exact inv_pop s hi ev rest hb _ (by rw [he])
    · rw [if_neg hfresh]
      exact hi

theorem inv_exec (a : Action) (s : Sys) (hi : Inv s) : Inv (exec a s) := by
  cases a with
  | wait fired => exact inv_wait s hi fired
  | handle => exact inv_handle s hi
  | take => exact inv_take s hi
  | finish fd act => exact inv_finish s hi fd act

theorem inv_run (as : List Action) : ∀ s : Sys, Inv s → Inv (run as s) := by
  induction as with
  | nil => intro s hi; exact hi
  | cons a as ih =>
    intro s hi
    exact ih (exec a s) (inv_exec a s hi)

theorem inv_init (listenfd epollfd : Int) (env : Env) (hq : env.pool.queue = []) :
    Inv (Sys.init listenfd epollfd env) := by
  unfold Sys.init
  rw [new_calls_of_append env _ _ (add_sockfd_calls epollfd listenfd false env)]
  simp only [kernel_calls, List.foldl, kernel_call, if_true, decide_eq_true_eq, true_or,
    and_self]
  have hfl : (add_sockfd epollfd listenfd false env).pool.queue = [] := hq
  by_cases hret : env.ctl EPOLL_CTL_ADD listenfd < 0
  · simp only [hret, if_true]
    exact
      { nodup_dispatched := List.nodup_nil
        nodup_in_flight := by simp [Sys.in_flight, hfl]
        in_flight_dispatched := by simp [Sys.in_flight, hfl]
        dispatched_open := by simp
        dispatched_unarmed := by simp
        dispatched_not_batch := by simp
        batch_open := by simp
        batch_nodup := List.nodup_nil
        regs_ok := by simp
        listen_open := by simp }
  · simp only [hret, if_false]
    exact
      { nodup_dispatched := List.nodup_nil
        nodup_in_flight := by simp [Sys.in_flight, hfl]
        in_flight_dispatched := by simp [Sys.in_flight, hfl]
        dispatched_open := by simp
        dispatched_unarmed := by simp
        dispatched_not_batch := by simp
        batch_open := by simp
        batch_nodup := List.nodup_nil
        regs_ok := by
          intro x r hr
          simp only at hr
          by_cases hx : x = listenfd
          · rw [hx, Function.update_same] at hr
            have e := (Option.some.inj hr).symm
            rw [e, hx]
            exact ⟨by simp, rfl, fun h => absurd rfl h⟩
          · rw [Function.update_noteq hx] at hr
            simp at hr
        listen_open := by simp }

/-! ## Error and hang-up events -/

theorem exec_handle_error (s : Sys) (ev : epoll_event) (rest : List epoll_event)
    (hb : s.batch = ev :: rest) (h : ev.fd ≠ s.listenfd)
    (hf : ev.events &&& EPOLLRDHUP ≠ 0 ∨ ev.events &&& EPOLLHUP ≠ 0 ∨
      ev.events &&& EPOLLERR ≠ 0) :
    exec_handle s =
      { s with env := s.env.log (Call.close ev.fd), batch := rest,
               opened := Function.update s.opened ev.fd false,
               regs := Function.update s.regs ev.fd none } := by
  have he := handle_event_error s.listenfd s.epollfd ev s.env h hf
  have hc : new_calls s.env (handle_event s.listenfd s.epollfd ev s.env) =
      [Call.close ev.fd] := by
    rw [he]; exact new_calls_of_append _ _ _ rfl
  unfold exec_handle
  rw [hb]
  simp only [hc]
  simp only [he, fresh_accepts, List.all_cons, List.all_nil, Bool.and_true, if_true,
    kernel_calls, List.foldl, kernel_call, submitted, List.map_nil, List.nil_append]

/-- C2: for a ready event on a client fd with any of `EPOLLRDHUP`, `EPOLLHUP`,
`EPOLLERR` set (whether or not `EPOLLIN` is set too) the loop body makes
exactly one call, `close(fd)`, and submits no task; with that call the
descriptor is closed and no longer registered with the multiplexer (closing
drops its registration), the pool, the dispatched connections and the rest of
the batch are untouched. -/
theorem C2_error_event_unregistered_closed (s : Sys) (ev : epoll_event)
    (rest : List epoll_event) (hb : s.batch = ev :: rest) (h : ev.fd ≠ s.listenfd)
    (hf : ev.events &&& EPOLLRDHUP ≠ 0 ∨ ev.events &&& EPOLLHUP ≠ 0 ∨
      ev.events &&& EPOLLERR ≠ 0) :
    new_calls s.env (handle_event s.listenfd s.epollfd ev s.env) = [Call.close ev.fd] ∧
    submitted (new_calls s.env (handle_event s.listenfd s.epollfd ev s.env)) = [] ∧
    closes ev.fd (new_calls s.env (handle_event s.listenfd s.epollfd ev s.env)) = true ∧
    (exec_handle s).regs ev.fd = none ∧
    (exec_handle s).opened ev.fd = false ∧
    (exec_handle s).env.pool = s.env.pool ∧
    (exec_handle s).in_flight = s.in_flight ∧
    (exec_handle s).dispatched = s.dispatched ∧
    (exec_handle s).batch = rest := by
  have he := handle_event_error s.listenfd s.epollfd ev s.env h hf
  have hc : new_calls s.env (handle_event s.listenfd s.epollfd ev s.env) =
      [Call.close ev.fd] := by
    rw [he]; exact new_calls_of_append _ _ _ rfl
  rw [hc, exec_handle_error s ev rest hb h hf]
  refine ⟨rfl, rfl, ?_, ?_, ?_, rfl, rfl, rfl, rfl⟩
  · simp [closes, Call.is_close]
  · exact Function.update_same _ _ _
  · exact Function.update_same _ _ _

/-- Witness for C2: client 7, registered and open, is reported with `EPOLLIN`
and `EPOLLRDHUP` both set; after the loop body it is neither registered nor
open and nothing was submitted. -/
theorem C2_error_event_unregistered_closed_witness :
    (Sys.sample_hangup.regs 7 ≠ none ∧ Sys.sample_hangup.opened 7 = true) ∧
    (new_calls Sys.sample_hangup.env
        (handle_event 3 4 ⟨EPOLLIN ||| EPOLLRDHUP, 7⟩ Sys.sample_hangup.env) = [Call.close 7] ∧
      submitted (new_calls Sys.sample_hangup.env
        (handle_event 3 4 ⟨EPOLLIN ||| EPOLLRDHUP, 7⟩ Sys.sample_hangup.env)) = [] ∧
      (exec_handle Sys.sample_hangup).regs 7 = none ∧
      (exec_handle Sys.sample_hangup).opened 7 = false) :=
  ⟨by decide,
    (C2_error_event_unregistered_closed Sys.sample_hangup ⟨EPOLLIN ||| EPOLLRDHUP, 7⟩ []
      (by decide) (by decide) (Or.inl (by decide))).1,
    (C2_error_event_unregistered_closed Sys.sample_hangup ⟨EPOLLIN ||| EPOLLRDHUP, 7⟩ []
      (by decide) (by decide) (Or.inl (by decide))).2.1,
    (C2_error_event_unregistered_closed Sys.sample_hangup ⟨EPOLLIN ||| EPOLLRDHUP, 7⟩ []
      (by decide) (by decide) (Or.inl (by decide))).2.2.2.1,
    (C2_error_event_unregistered_closed Sys.sample_hangup ⟨EPOLLIN ||| EPOLLRDHUP, 7⟩ []
      (by decide) (by decide) (Or.inl (by decide))).2.2.2.2.1⟩

/-- C5: one-shot invariant.  In every state the running system reaches from the
start of the loop, by any interleaving of `epoll_wait` returns, loop bodies of
the reactor, workers taking tasks and workers applying the handler's action,
no connection is listed twice among those dispatched (`pool->add` called and
the connection neither re-armed nor closed since), so no second task is
submitted for a connection before it is re-armed or closed; at most one task
per connection is in flight (queued or being executed); a dispatched
connection has no armed registration and no event waiting in the batch; and
`modfd` always sets `EPOLLONESHOT | EPOLLET | EPOLLRDHUP` whatever the
requested interest. -/
theorem C5_one_shot_invariant (listenfd epollfd : Int) (env : Env)
    (hq : env.pool.queue = []) (as : List Action) :
    (run as (Sys.init listenfd epollfd env)).dispatched.Nodup ∧
    (run as (Sys.init listenfd epollfd env)).in_flight.Nodup ∧
    (∀ fd ∈ (run as (Sys.init listenfd epollfd env)).in_flight,
      fd ∈ (run as (Sys.init listenfd epollfd env)).dispatched) ∧
    (∀ fd ∈ (run as (Sys.init listenfd epollfd env)).dispatched,
      (run as (Sys.init listenfd epollfd env)).armed fd = false ∧
        ∀ ev ∈ (run as (Sys.init listenfd epollfd env)).batch, ev.fd ≠ fd) ∧
    (∀ ev : Nat, modfd_events ev &&& (EPOLLONESHOT ||| EPOLLET ||| EPOLLRDHUP) =
      EPOLLONESHOT ||| EPOLLET ||| EPOLLRDHUP) := by
  have hi := inv_run as _ (inv_init listenfd epollfd env hq)
  exact ⟨hi.nodup_dispatched, hi.nodup_in_flight, hi.in_flight_dispatched,
    fun fd hfd => ⟨hi.dispatched_unarmed fd hfd, hi.dispatched_not_batch fd hfd⟩,
    modfd_events_flags⟩

/-- Witness for C5: the sample run from a fresh pool; connection 5 is dispatched
twice in all, the second time only after its re-arm, and is once in flight. -/
theorem C5_one_shot_invariant_witness :
    (run Action.sample (Sys.init 3 4 (Env.sample [(5, 0), (6, 0)] 8))).dispatched.Nodup ∧
    (run Action.sample (Sys.init 3 4 (Env.sample [(5, 0), (6, 0)] 8))).dispatched = [5] ∧
    (run Action.sample (Sys.init 3 4 (Env.sample [(5, 0), (6, 0)] 8))).in_flight = [5] ∧
    submitted (run Action.sample (Sys.init 3 4 (Env.sample [(5, 0), (6, 0)] 8))).env.calls =
      [(4, 5), (4, 5)] :=
  ⟨(C5_one_shot_invariant 3 4 (Env.sample [(5, 0), (6, 0)] 8) rfl Action.sample).1,
    by decide, by decide, by decide⟩

end HttpServer
